import Mathlib

/-!
# Verification of `parse_trades.py` (jads147/stock-trade-data)

Shallow embedding of the transaction parsing / deduplication / average-cost
P&L engine of `parse_trades.py`, together with theorems settling the spec's
claims.

Modelling conventions:
* Python `float` values are modelled as exact rationals (`ℚ`).  All the
  arithmetic the claims exercise (sums, products, divisions by nonzero
  quantities, absolute values, comparisons against the `0.001` and `1e-6`
  tolerances) is carried out exactly.
* Python strings are modelled as `List Char` (`Str` below).  The source file
  contains UTF-8 text that was produced by an encoding round-trip; the unusual
  characters appearing in its literals (for instance `Ã` U+00C3, `¤` U+00A4 or
  the three-character euro marker) are constructed explicitly via `Char.ofNat`
  so that the embedding matches the bytes of the source exactly.
* The handful of regular expressions in the source are hand-compiled to
  deterministic character-list parsers.  Each parser's doc comment records the
  regex it implements; lazy groups (`.+?`, `.*?`) are implemented by trying
  the shortest prefix first, greedy character classes by `takeWhile`, which
  coincides with the backtracking semantics for these particular patterns
  because in each of them the character following a greedy class is never a
  member of the class.
* `datetime` values are modelled by a `Date` record (year, month, day); the
  constructor's `ValueError` on out-of-range components is modelled by
  `mkDatetime : … → Option Date`.
-/

/-- Python strings are modelled as lists of characters. -/
abbrev Str := List Char

/-- Shorthand for turning a Lean string literal into `Str`. -/
def str (s : String) : Str := s.data

/-- U+00C3 `Ã`, the lead character of all the encoding-damaged umlauts in the
source file. -/
def chA : Char := Char.ofNat 195

/-- U+00A4 `¤` (second char of the damaged `ä`). -/
def chAe : Char := Char.ofNat 164

/-- U+00B6 `¶` (second char of the damaged `ö`). -/
def chOe : Char := Char.ofNat 182

/-- U+00BC `¼` (second char of the damaged `ü`). -/
def chUe : Char := Char.ofNat 188

/-- U+201E `„` (second char of the damaged `Ä`). -/
def chAE : Char := Char.ofNat 8222

/-- U+2013 `–` (second char of the damaged `Ö`). -/
def chOE : Char := Char.ofNat 8211

/-- U+0153 `œ` (second char of the damaged `Ü`). -/
def chUE : Char := Char.ofNat 339

/-- U+0178 `Ÿ` (second char of the damaged `ß`). -/
def chSz : Char := Char.ofNat 376

/-- The damaged euro marker `â‚¬`: U+00E2, U+201A, U+00AC. -/
def euroStr : Str := [Char.ofNat 226, Char.ofNat 8218, Char.ofNat 172]

/-- The damaged `ä` as it appears in the source's literals. -/
def umlAe : Str := [chA, chAe]

/-- The damaged `ü` as it appears in the source's literals. -/
def umlUe : Str := [chA, chUe]

/-- The damaged `Ü` as it appears in the source's literals. -/
def umlUE : Str := [chA, chUE]

/-- Python's `str.strip()` / the whitespace test `\s` of the regexes. -/
def isWs (c : Char) : Bool := c.isWhitespace

/-- Strip leading and trailing whitespace (Python `str.strip()`). -/
def trimChars (s : Str) : Str :=
  ((s.dropWhile isWs).reverse.dropWhile isWs).reverse

/-- Python `sub in s` substring test. -/
def containsSub (pat : Str) : Str → Bool
  | [] => pat.isPrefixOf []
  | c :: t => pat.isPrefixOf (c :: t) || containsSub pat t

/-- ASCII-lowercase a character (the case-insensitive regex flags in the
source only ever have to fold ASCII letters on the reachable inputs). -/
def lowC (c : Char) : Char := c.toLower

/-- Case-insensitive equality of strings, via ASCII lowercasing. -/
def eqCI (a b : Str) : Bool := a.map lowC = b.map lowC

/-- Match a literal, case-sensitively; return the rest of the input. -/
def lit (pat : Str) (s : Str) : Option Str :=
  if pat.isPrefixOf s then some (s.drop pat.length) else none

/-- Match a literal case-insensitively; return the rest of the input. -/
def litCI (pat : Str) (s : Str) : Option Str :=
  if (s.take pat.length).map lowC = pat.map lowC ∧ pat.length ≤ s.length then
    some (s.drop pat.length)
  else none

/-- Decimal digit test (`\d`). -/
def isDigitC (c : Char) : Bool := c.isDigit

/-- Value of a decimal digit character. -/
def digitVal (c : Char) : ℕ := c.toNat - 48

/-- Big-endian decimal value of a digit string (`int(...)` on digit input). -/
def digitsToNat (s : Str) : ℕ := s.foldl (fun a c => 10 * a + digitVal c) 0

/-- The character for a single decimal digit. -/
def digitToChar (d : ℕ) : Char :=
  match d with
  | 0 => '0' | 1 => '1' | 2 => '2' | 3 => '3' | 4 => '4'
  | 5 => '5' | 6 => '6' | 7 => '7' | 8 => '8' | 9 => '9'
  | _ => '*'

/-- Little-endian digit list of a natural number (empty for `0`). -/
def natToRevDigits (n : ℕ) : List ℕ :=
  if h : n = 0 then [] else n % 10 :: natToRevDigits (n / 10)
termination_by n
decreasing_by exact Nat.div_lt_self (Nat.pos_of_ne_zero h) (by decide)

/-- Decimal digit string of a natural number. -/
def natDigitsStr (n : ℕ) : Str :=
  if n = 0 then ['0'] else ((natToRevDigits n).map digitToChar).reverse

/-- Value of a little-endian digit list. -/
def valLE : List ℕ → ℕ
  | [] => 0
  | d :: ds => d + 10 * valLE ds

theorem valLE_natToRevDigits (n : ℕ) : valLE (natToRevDigits n) = n := by
  induction n using Nat.strong_induction_on with
  | _ n ih =>
    by_cases h : n = 0
    · subst h; simp [natToRevDigits, valLE]
    · rw [natToRevDigits]
      simp only [h, dite_false, valLE]
      rw [ih (n / 10) (Nat.div_lt_self (Nat.pos_of_ne_zero h) (by decide))]
      omega

theorem natToRevDigits_lt_ten (n : ℕ) : ∀ d ∈ natToRevDigits n, d < 10 := by
  induction n using Nat.strong_induction_on with
  | _ n ih =>
    by_cases h : n = 0
    · subst h; simp [natToRevDigits]
    · rw [natToRevDigits]
      simp only [h, dite_false, List.mem_cons]
      rintro d (rfl | hd)
      · exact Nat.mod_lt _ (by decide)
      · exact ih (n / 10) (Nat.div_lt_self (Nat.pos_of_ne_zero h) (by decide)) d hd

theorem digitVal_digitToChar {d : ℕ} (h : d < 10) : digitVal (digitToChar d) = d := by
  interval_cases d <;> decide

theorem isDigitC_digitToChar {d : ℕ} (h : d < 10) : isDigitC (digitToChar d) = true := by
  interval_cases d <;> decide

/-! ## Numeric normalizer (`parse_german_number`, `format_german_number`) -/

/-- `float(s)` on a decimal literal without sign: `digits`, `digits.digits`,
`digits.` or `.digits`.  Returns `none` where Python raises `ValueError`.
(Exponent, `inf`/`nan` and underscore forms are outside the modelled grammar;
no call site in the source can produce them, since every argument is drawn
from the character classes `[\d.,\s-]` with `,`/` `/`-` removed or
translated.) -/
def parseUnsignedFloat (s : Str) : Option ℚ :=
  let ip := s.takeWhile isDigitC
  let rest := s.dropWhile isDigitC
  match rest with
  | [] => if ip.isEmpty then none else some (digitsToNat ip : ℚ)
  | c :: frac =>
    if c = '.' ∧ frac.all isDigitC ∧ (¬ ip.isEmpty ∨ ¬ frac.isEmpty) then
      some ((digitsToNat ip : ℚ) + (digitsToNat frac : ℚ) / (10 : ℚ) ^ frac.length)
    else none

/-- `float(s)` including an optional sign. -/
def parseFloatLit (s : Str) : Option ℚ :=
  match s with
  | '-' :: r => (parseUnsignedFloat r).map (fun q => -q)
  | '+' :: r => parseUnsignedFloat r
  | _ => parseUnsignedFloat s

/-- The cleaning step of `parse_german_number`:
`value.replace(".", "").replace(",", ".")`. -/
def cleanNum (s : Str) : Str :=
  (s.filter (fun c => c != '.')).map (fun c => if c = ',' then '.' else c)

/-- `parse_german_number(value)`: strip, drop thousands dots, turn the decimal
comma into a dot, parse as a float; `0.0` on blank or unparseable input. -/
def parse_german_number (s : Str) : ℚ :=
  if (trimChars s).isEmpty then 0
  else
    match parseFloatLit (cleanNum (trimChars s)) with
    | some q => q
    | none => 0

/-- Round to the nearest integer, ties to even — the rounding used by
Python's fixed-point string formatting (and by `round`). -/
def rhe (q : ℚ) : ℤ :=
  let f := ⌊q⌋
  if q - f < 1 / 2 then f
  else if 1 / 2 < q - f then f + 1
  else if 2 ∣ f then f else f + 1

/-- Insert a `.` thousands separator after every three characters of a
reversed digit string (helper for `format_german_number`). -/
def group3Rev (l : Str) : Str :=
  if _h : l.length ≤ 3 then l
  else l.take 3 ++ '.' :: group3Rev (l.drop 3)
termination_by l.length
decreasing_by simp [List.length_drop]; omega

/-- Group a digit string with `.` separators every three digits from the
right (the `,` of Python's `{:,}` format, after the source's swap). -/
def groupDigits (s : Str) : Str := (group3Rev s.reverse).reverse

/-- Left-pad with zeros to the given length. -/
def padZeros (n : ℕ) (s : Str) : Str := List.replicate (n - s.length) '0' ++ s

/-- `format_german_number(value, decimals)`: Python's `f"{value:,.{d}f}"`
followed by swapping `.` and `,`.  The sign of a negative zero is not
reproduced (Python may print `-0,00`; both sides parse back to `0`). -/
def format_german_number (x : ℚ) (decimals : ℕ := 2) : Str :=
  let scaled := rhe (x * (10 : ℚ) ^ decimals)
  let m := scaled.natAbs
  let core := groupDigits (natDigitsStr (m / 10 ^ decimals)) ++
    (if decimals = 0 then [] else
      ',' :: padZeros decimals (natDigitsStr (m % 10 ^ decimals)))
  if scaled < 0 then '-' :: core else core

/-! ## Dates -/

/-- A calendar date as held by a Python `datetime` (time components are never
nonzero in this program). -/
structure Date where
  year : ℕ
  month : ℕ
  day : ℕ
deriving DecidableEq, Repr

/-- `datetime.min`, the sentinel for unparseable dates. -/
def dateMin : Date := ⟨1, 1, 1⟩

/-- Gregorian leap-year test. -/
def isLeap (y : ℕ) : Bool := (y % 4 = 0 ∧ y % 100 ≠ 0) ∨ y % 400 = 0

/-- Days in a month. -/
def daysInMonth (y m : ℕ) : ℕ :=
  if m = 2 then (if isLeap y then 29 else 28)
  else if m = 4 ∨ m = 6 ∨ m = 9 ∨ m = 11 then 30
  else 31

/-- `datetime(year, month, day)`: `none` models the `ValueError` raised on
out-of-range components. -/
def mkDatetime (y m d : ℕ) : Option Date :=
  if 1 ≤ y ∧ y ≤ 9999 ∧ 1 ≤ m ∧ m ≤ 12 ∧ 1 ≤ d ∧ d ≤ daysInMonth y m then
    some ⟨y, m, d⟩
  else none

/-- Chronological comparison of dates. -/
def dateLe (a b : Date) : Bool :=
  a.year < b.year ∨ (a.year = b.year ∧
    (a.month < b.month ∨ (a.month = b.month ∧ a.day ≤ b.day)))

/-- Day ordinal of a date (proleptic Gregorian civil-day count); used only to
model `(last_sell - first_buy).days`. -/
def dayOrdinal (dt : Date) : ℤ :=
  let y : ℤ := if dt.month ≤ 2 then (dt.year : ℤ) - 1 else dt.year
  let era : ℤ := y / 400
  let yoe : ℤ := y - era * 400
  let mp : ℤ := ((dt.month : ℤ) + 9) % 12
  let doy : ℤ := (153 * mp + 2) / 5 + (dt.day : ℤ) - 1
  let doe : ℤ := yoe * 365 + yoe / 4 - yoe / 100 + doy
  era * 146097 + doe - 719468

/-- `parse_german_date(value)`: `strptime(value.strip(), "%d.%m.%Y")`, with
`datetime.min` on failure.  `%d`/`%m` accept one or two digits, `%Y` exactly
four, and the whole string must be consumed. -/
def parse_german_date (s : Str) : Date :=
  let t := trimChars s
  let dd := t.takeWhile isDigitC
  let r1 := t.dropWhile isDigitC
  match r1 with
  | '.' :: r2 =>
    let mm := r2.takeWhile isDigitC
    let r3 := r2.dropWhile isDigitC
    match r3 with
    | '.' :: yy =>
      if 1 ≤ dd.length ∧ dd.length ≤ 2 ∧ 1 ≤ mm.length ∧ mm.length ≤ 2 ∧
          yy.length = 4 ∧ yy.all isDigitC then
        (mkDatetime (digitsToNat yy) (digitsToNat mm) (digitsToNat dd)).getD dateMin
      else dateMin
    | _ => dateMin
  | _ => dateMin

/-- The `GERMAN_MONTHS` lookup table, including the encoding-damaged and the
raw-umlaut spellings of März. -/
def GERMAN_MONTHS : List (Str × ℕ) :=
  [ (str "Januar", 1), (str "Jan", 1), (str "Jan.", 1),
    (str "Februar", 2), (str "Feb", 2), (str "Feb.", 2),
    ('M' :: umlAe ++ str "rz", 3), ('M' :: umlAe ++ str "r", 3),
    ('M' :: umlAe ++ str "r.", 3),
    (['M', Char.ofNat 228, 'r', 'z'], 3), (['M', Char.ofNat 228, 'r'], 3),
    (['M', Char.ofNat 228, 'r', '.'], 3),
    (str "April", 4), (str "Apr", 4), (str "Apr.", 4),
    (str "Mai", 5),
    (str "Juni", 6), (str "Jun", 6), (str "Jun.", 6),
    (str "Juli", 7), (str "Jul", 7), (str "Jul.", 7),
    (str "August", 8), (str "Aug", 8), (str "Aug.", 8),
    (str "September", 9), (str "Sep", 9), (str "Sep.", 9),
    (str "Oktober", 10), (str "Okt", 10), (str "Okt.", 10),
    (str "November", 11), (str "Nov", 11), (str "Nov.", 11),
    (str "Dezember", 12), (str "Dez", 12), (str "Dez.", 12) ]

/-- `GERMAN_MONTHS.get(key)`. -/
def monthLookup (k : Str) : Option ℕ :=
  (GERMAN_MONTHS.find? (fun p => p.1 == k)).map (·.2)

/-- `month_str.rstrip(".")`. -/
def rstripDots (s : Str) : Str := (s.reverse.dropWhile (fun c => c = '.')).reverse

/-- `GERMAN_MONTHS.get(m) or GERMAN_MONTHS.get(m.rstrip("."))` (the values
are all nonzero, so Python's `or` is just option fallback here). -/
def monthLookup2 (k : Str) : Option ℕ :=
  match monthLookup k with
  | some m => some m
  | none => monthLookup (rstripDots k)

/-! ## The canonical `Transaction` record -/

/-- The `Transaction` dataclass.  Field names follow the source; `typ` is the
transaction kind (spec: Order, SavingsPlanOrder = "Sparplan", FractionalOrder
= "Bruchstücke", SecurityOtcSettlement = "WP-Abrechnung", Deposit =
"Einzahlung", …), `stueck` the traded quantity, `betrag` the signed amount. -/
structure Transaction where
  datum : Date
  valuta : Date
  betrag : ℚ
  status : Str
  verwendungszweck : Str
  iban : Str
  typ : Str := []
  order_nr : Str := []
  isin : Str := []
  name : Str := []
  stueck : ℚ := 0
  is_kauf : Bool := false
  is_verkauf : Bool := false
deriving DecidableEq, Repr

/-! ## Deduplicator (`load_transactions`, lines 1761–1773) -/

/-- Python `round(x, n)` (round half to even), on exact rationals. -/
def roundTo (n : ℕ) (x : ℚ) : ℚ := (rhe (x * (10 : ℚ) ^ n) : ℚ) / (10 : ℚ) ^ n

/-- The deduplication key `(t.datum, round(t.betrag, 2), t.isin, round(t.stueck, 4))`. -/
def dedupKey (t : Transaction) : Date × ℚ × Str × ℚ :=
  (t.datum, roundTo 2 t.betrag, t.isin, roundTo 4 t.stueck)

/-- The seen-set loop of `load_transactions`: keep a transaction iff its key
is not in `seen`; on keeping, add the key. -/
def dedupAux (seen : List (Date × ℚ × Str × ℚ)) : List Transaction → List Transaction
  | [] => []
  | t :: ts =>
    if dedupKey t ∈ seen then dedupAux seen ts
    else t :: dedupAux (dedupKey t :: seen) ts

/-- The deduplication pass of `load_transactions`. -/
def deduplicate (l : List Transaction) : List Transaction := dedupAux [] l

/-- Spec-side restatement of deduplication: walking the list with the full
list of *earlier* transactions at hand, keep a transaction iff no earlier
transaction (kept or not) agrees with it on the key. -/
def dedupSpec (earlier : List Transaction) : List Transaction → List Transaction
  | [] => []
  | t :: ts =>
    if earlier.any (fun e => dedupKey e == dedupKey t) then dedupSpec (earlier ++ [t]) ts
    else t :: dedupSpec (earlier ++ [t]) ts

theorem dedupAux_congr_seen (l : List Transaction) :
    ∀ s₁ s₂ : List (Date × ℚ × Str × ℚ), (∀ k, k ∈ s₁ ↔ k ∈ s₂) →
    dedupAux s₁ l = dedupAux s₂ l := by
  induction l with
  | nil => intro s₁ s₂ _; rfl
  | cons t ts ih =>
    intro s₁ s₂ hs
    simp only [dedupAux]
    by_cases h : dedupKey t ∈ s₁
    · rw [if_pos h, if_pos ((hs _).mp h), ih _ _ hs]
    · rw [if_neg h, if_neg (fun hc => h ((hs _).mpr hc))]
      congr 1
      refine ih _ _ (fun k => ?_)
      simp only [List.mem_cons]
      exact or_congr Iff.rfl (hs k)

theorem dedupAux_eq_dedupSpec (l : List Transaction) :
    ∀ (earlier : List Transaction) (seen : List (Date × ℚ × Str × ℚ)),
    (∀ k, k ∈ seen ↔ ∃ e ∈ earlier, dedupKey e = k) →
    dedupAux seen l = dedupSpec earlier l := by
  induction l with
  | nil => intro _ _ _; rfl
  | cons t ts ih =>
    intro earlier seen hinv
    simp only [dedupAux, dedupSpec]
    have hmem : (dedupKey t ∈ seen) ↔ (earlier.any (fun e => dedupKey e == dedupKey t) = true) := by
      rw [hinv]
      simp [List.any_eq_true]
    by_cases h : dedupKey t ∈ seen
    · rw [if_pos h, if_pos (hmem.mp h)]
      refine ih _ _ (fun k => ?_)
      rw [hinv k]
      constructor
      · rintro ⟨e, he, hk⟩; exact ⟨e, by simp [he], hk⟩
      · rintro ⟨e, he, hk⟩
        rcases List.mem_append.mp he with h' | h'
        · exact ⟨e, h', hk⟩
        · simp only [List.mem_singleton] at h'
          subst h'
          obtain ⟨e', he', hk'⟩ := (hinv (dedupKey e)).mp h
          exact ⟨e', he', hk'.trans hk⟩
    · rw [if_neg h, if_neg (fun hc => h (hmem.mpr hc))]
      congr 1
      refine ih _ _ (fun k => ?_)
      simp only [List.mem_cons, hinv k]
      constructor
      · rintro (rfl | ⟨e, he, hk⟩)
        · exact ⟨t, by simp, rfl⟩
        · exact ⟨e, by simp [he], hk⟩
      · rintro ⟨e, he, hk⟩
        rcases List.mem_append.mp he with h' | h'
        · exact Or.inr ⟨e, h', hk⟩
        · simp only [List.mem_singleton] at h'
          subst h'; exact Or.inl hk.symm

theorem dedupAux_idem (l : List Transaction) :
    ∀ seen, dedupAux seen (dedupAux seen l) = dedupAux seen l := by
  induction l with
  | nil => intro _; rfl
  | cons t ts ih =>
    intro seen
    simp only [dedupAux]
    by_cases h : dedupKey t ∈ seen
    · rw [if_pos h, ih]
    · rw [if_neg h]
      conv_lhs => rw [dedupAux]
      rw [if_neg h, ih]

/-- **C4.** The deduplicator keeps a transaction iff no earlier transaction
of the input list agrees with it on the tuple `(trade_date, amount rounded to
2 decimals, instrument_id, quantity rounded to 4 decimals)`: the seen-set
loop of `load_transactions` computes exactly the "first occurrence of each
key wins" filter `dedupSpec`. -/
theorem dedup_keeps_first_occurrence (l : List Transaction) :
    deduplicate l = dedupSpec [] l := by
  exact dedupAux_eq_dedupSpec l [] [] (by simp)

/-- **C5.** Deduplication is idempotent: applying the deduplication step of
`load_transactions` to its own output returns that output unchanged. -/
theorem dedup_idempotent (l : List Transaction) :
    deduplicate (deduplicate l) = deduplicate l := by
  exact dedupAux_idem l []

/-! ## Cost-basis / P&L engine (`generate_html`, lines 1232–1269) -/

/-- One per-instrument ledger entry of `cost_basis_by_isin`:
`{"total_cost": ..., "total_stueck": ..., "name": ...}`. -/
structure CostBasis where
  total_cost : ℚ
  total_stueck : ℚ
  bname : Str
deriving DecidableEq, Repr

/-- One entry of `pnl_events`.  The source tags an event only with a display
name (`basis["name"][:30]`); the embedding additionally records the
originating instrument id (`eisin`) so that per-instrument sums of event
deltas can be stated.  All other fields are exactly the source's. -/
structure PnlEvent where
  edate : Date
  pnl : ℚ
  etype : Str
  ename : Str
  eisin : Str
deriving DecidableEq, Repr

/-- State of the chronological average-cost pass: the `cost_basis_by_isin`
dictionary (as an association list in insertion order) and the `pnl_events`
accumulated so far. -/
structure PnlState where
  basisMap : List (Str × CostBasis)
  events : List PnlEvent
deriving DecidableEq, Repr

/-- Dictionary lookup `cost_basis_by_isin[isin]`. -/
def findBasis (m : List (Str × CostBasis)) (k : Str) : Option CostBasis :=
  (m.find? (fun p => p.1 == k)).map (·.2)

/-- Replace the (present) binding of `k` by `b`; appends when absent. -/
def setBasis (m : List (Str × CostBasis)) (k : Str) (b : CostBasis) : List (Str × CostBasis) :=
  match m with
  | [] => [(k, b)]
  | (k', b') :: rest =>
    if k' = k then (k', b) :: rest else (k', b') :: setBasis rest k b

/-- Accumulated cost for an instrument (`0` when the entry is absent). -/
def costOf (m : List (Str × CostBasis)) (k : Str) : ℚ :=
  match findBasis m k with
  | some b => b.total_cost
  | none => 0

/-- Accumulated quantity for an instrument (`0` when the entry is absent). -/
def stueckOf (m : List (Str × CostBasis)) (k : Str) : ℚ :=
  match findBasis m k with
  | some b => b.total_stueck
  | none => 0

/-- The dictionary after the entry-creation line (1244–1245) of the loop:
unchanged when the instrument already has an entry, otherwise extended with a
zero entry named after the transaction. -/
def stepM0 (st : PnlState) (t : Transaction) : List (Str × CostBasis) :=
  if (findBasis st.basisMap t.isin).isSome then st.basisMap
  else st.basisMap ++ [(t.isin, ⟨0, 0, t.name⟩)]

/-- The `basis = cost_basis_by_isin[t.isin]` value read by the loop body
(the entry is always present after `stepM0`; the default is never used). -/
def stepB (st : PnlState) (t : Transaction) : CostBasis :=
  (findBasis (stepM0 st t) t.isin).getD ⟨0, 0, t.name⟩

/-- One iteration of the average-cost loop (lines 1240–1269): skip
transactions without an instrument id, create the ledger entry if missing,
then either accumulate a buy, or — for a sell with positive quantity against
positive accumulated quantity — emit a `PnlEvent` and reduce the ledger. -/
def pnlStep (st : PnlState) (t : Transaction) : PnlState :=
  if t.isin = [] then st
  else
    let m0 := stepM0 st t
    let b := stepB st t
    if t.is_kauf then
      let b' : CostBasis := { b with total_cost := b.total_cost + |t.betrag|,
                                     total_stueck := b.total_stueck + t.stueck }
      { st with basisMap := setBasis m0 t.isin b' }
    else if t.is_verkauf ∧ 0 < t.stueck then
      if 0 < b.total_stueck then
        let avg_cost_per_unit := b.total_cost / b.total_stueck
        let cost_of_sold := avg_cost_per_unit * t.stueck
        let realized_pnl := t.betrag - cost_of_sold
        let b' : CostBasis := { b with total_cost := b.total_cost - cost_of_sold,
                                       total_stueck := b.total_stueck - t.stueck }
        { basisMap := setBasis m0 t.isin b',
          events := st.events ++
            [⟨t.datum, realized_pnl, str "Trade", b.bname.take 30, t.isin⟩] }
      else { st with basisMap := m0 }
    else { st with basisMap := m0 }

/-- Stable insertion into a date-sorted list: the new element goes after all
elements whose date is `≤` its own, as Python's stable `sorted` does. -/
def insertChrono (t : Transaction) : List Transaction → List Transaction
  | [] => [t]
  | u :: us => if dateLe u.datum t.datum then u :: insertChrono t us else t :: u :: us

/-- `sorted(trades, key=lambda t: t.datum)` (stable). -/
def sortChrono (l : List Transaction) : List Transaction :=
  l.foldl (fun acc t => insertChrono t acc) []

/-- The chronological average-cost pass over a trade list
(`all_trade_transactions = sorted(trades, ...)`, then the loop). -/
def pnlPass (trades : List Transaction) : PnlState :=
  (sortChrono trades).foldl pnlStep ⟨[], []⟩

/-- The per-sale `pnl_events` produced by the pass. -/
def pnlTradeEvents (trades : List Transaction) : List PnlEvent :=
  (pnlPass trades).events

/-- Sum of the event deltas attributed to one instrument. -/
def pnlSumFor (k : Str) (events : List PnlEvent) : ℚ :=
  ((events.filter (fun e => e.eisin == k)).map (·.pnl)).sum

/-- The instrument's buys, as grouped by `generate_html` (`kaufe`). -/
def kaufeFor (k : Str) (l : List Transaction) : List Transaction :=
  l.filter (fun t => t.isin == k && t.is_kauf)

/-- The instrument's sales, as grouped by `generate_html` (`verkaeufe`: the
`else` branch of the grouping, i.e. every trade that is not a buy). -/
def verkaeufeFor (k : Str) (l : List Transaction) : List Transaction :=
  l.filter (fun t => t.isin == k && !t.is_kauf)

/-- `kauf_sum` for one instrument. -/
def kaufSum (k : Str) (l : List Transaction) : ℚ :=
  ((kaufeFor k l).map (·.betrag)).sum

/-- `verkauf_sum` for one instrument. -/
def verkaufSum (k : Str) (l : List Transaction) : ℚ :=
  ((verkaeufeFor k l).map (·.betrag)).sum

/-- Sum of `abs(betrag)` over the instrument's buys (what the ledger's
`total_cost` accumulates). -/
def kaufAbsSum (k : Str) (l : List Transaction) : ℚ :=
  ((kaufeFor k l).map (fun t => |t.betrag|)).sum

/-- `kauf_stueck` for one instrument. -/
def kaufStueckSum (k : Str) (l : List Transaction) : ℚ :=
  ((kaufeFor k l).map (·.stueck)).sum

/-- `verkauf_stueck` for one instrument. -/
def verkaufStueckSum (k : Str) (l : List Transaction) : ℚ :=
  ((verkaeufeFor k l).map (·.stueck)).sum

/-- "Every sale of instrument `k` is fully matched": walking the list through
the pass, every non-buy trade of `k` has positive quantity not exceeding the
ledger's accumulated quantity at its turn. -/
def sellsMatched (k : Str) (st : PnlState) : List Transaction → Bool
  | [] => true
  | t :: ts =>
    (if t.isin = k ∧ t.is_kauf = false then
       decide (0 < t.stueck ∧ t.stueck ≤ stueckOf st.basisMap k)
     else true)
    && sellsMatched k (pnlStep st t) ts

/-! ## Position classification (`generate_html`, lines 628–753) -/

/-- The trade kinds included in the statistics:
`["Order", "Sparplan", "BruchstÃ¼cke", "WP-Abrechnung"]`. -/
def trade_types : List Str :=
  [str "Order", str "Sparplan", str "Bruchst" ++ umlUe ++ str "cke",
   str "WP-Abrechnung"]

/-- `trades = [t for t in transactions if t.typ in trade_types]`. -/
def tradesFilter (transactions : List Transaction) : List Transaction :=
  transactions.filter (fun t => trade_types.contains t.typ)

/-- One value of the `trades_by_isin` dictionary. -/
structure IsinGroup where
  gname : Str
  kaufe : List Transaction
  verkaeufe : List Transaction
deriving DecidableEq, Repr

/-- Lookup in `trades_by_isin`. -/
def findGroup (m : List (Str × IsinGroup)) (k : Str) : Option IsinGroup :=
  (m.find? (fun p => p.1 == k)).map (·.2)

/-- Replace the (present) binding of `k`; appends when absent. -/
def setGroup (m : List (Str × IsinGroup)) (k : Str) (g : IsinGroup) :
    List (Str × IsinGroup) :=
  match m with
  | [] => [(k, g)]
  | (k', g') :: rest =>
    if k' = k then (k', g) :: rest else (k', g') :: setGroup rest k g

/-- One iteration of the grouping loop (lines 680–689): skip empty isins,
create the group if missing, then append to `kaufe` if `is_kauf` and to
`verkaeufe` otherwise. -/
def groupStep (m : List (Str × IsinGroup)) (t : Transaction) :
    List (Str × IsinGroup) :=
  if t.isin = [] then m
  else
    let m0 := if (findGroup m t.isin).isSome then m
              else m ++ [(t.isin, ⟨t.name, [], []⟩)]
    let g := (findGroup m0 t.isin).getD ⟨t.name, [], []⟩
    if t.is_kauf then
      setGroup m0 t.isin { g with kaufe := g.kaufe ++ [t] }
    else
      setGroup m0 t.isin { g with verkaeufe := g.verkaeufe ++ [t] }

/-- `trades_by_isin` built from the (already `trade_types`-filtered) trades. -/
def trades_by_isin (trades : List Transaction) : List (Str × IsinGroup) :=
  trades.foldl groupStep []

/-- Strict chronological order on dates. -/
def dateLt (a b : Date) : Bool :=
  a.year < b.year ∨ (a.year = b.year ∧
    (a.month < b.month ∨ (a.month = b.month ∧ a.day < b.day)))

/-- Python `min` over a date list (first minimum; `dateMin` on empty input,
which the source never hits because the call is guarded). -/
def minDateList : List Date → Date
  | [] => dateMin
  | d :: ds => ds.foldl (fun a x => if dateLt x a then x else a) d

/-- Python `max` over a date list. -/
def maxDateList : List Date → Date
  | [] => dateMin
  | d :: ds => ds.foldl (fun a x => if dateLt a x then x else a) d

/-- A classified position: the `position_data` dictionary after one of the
two branches of lines 716–749.  Fields common to both branches come first. -/
inductive Position where
  | closedPos
      (isin pname : Str) (kauf_count verkauf_count : ℕ)
      (kauf_sum verkauf_sum kauf_stueck verkauf_stueck open_stueck : ℚ)
      (pnl : ℚ) (hold_days : ℤ) (first_buy last_sell : Option Date)
      (rendite_pct : ℚ)
  | openPos
      (isin pname : Str) (kauf_count verkauf_count : ℕ)
      (kauf_sum verkauf_sum kauf_stueck verkauf_stueck open_stueck : ℚ)
      (avg_kauf_preis invested realized_pnl : ℚ)
deriving DecidableEq, Repr

/-- Classify one instrument's trades (lines 695–749): a position is Closed
when `abs(open_stueck) < 0.001`, carrying realized pnl, hold time and return
percentage; otherwise Open, carrying average buy price, invested value and
realized P&L of partial sales. -/
def positionForIsin (isin : Str) (g : IsinGroup) : Position :=
  let kauf_sum := (g.kaufe.map (·.betrag)).sum
  let verkauf_sum := (g.verkaeufe.map (·.betrag)).sum
  let kauf_stueck := (g.kaufe.map (·.stueck)).sum
  let verkauf_stueck := (g.verkaeufe.map (·.stueck)).sum
  let open_stueck := kauf_stueck - verkauf_stueck
  if |open_stueck| < 1 / 1000 then
    let pnl := verkauf_sum + kauf_sum
    let hold : ℤ × Option Date × Option Date :=
      if ¬ g.kaufe.isEmpty ∧ ¬ g.verkaeufe.isEmpty then
        let first_buy := minDateList (g.kaufe.map (·.datum))
        let last_sell := maxDateList (g.verkaeufe.map (·.datum))
        (dayOrdinal last_sell - dayOrdinal first_buy, some first_buy, some last_sell)
      else (0, none, none)
    let invested := |kauf_sum|
    let rendite_pct := if 0 < invested then pnl / invested * 100 else 0
    .closedPos isin g.gname g.kaufe.length g.verkaeufe.length
      kauf_sum verkauf_sum kauf_stueck verkauf_stueck open_stueck
      pnl hold.1 hold.2.1 hold.2.2 rendite_pct
  else
    let avg_kauf_preis := if 0 < kauf_stueck then |kauf_sum| / kauf_stueck else 0
    let invested := if 0 < kauf_stueck then open_stueck * avg_kauf_preis else 0
    let realized_pnl :=
      if 0 < verkauf_stueck then
        verkauf_sum - (if 0 < kauf_stueck then verkauf_stueck / kauf_stueck * |kauf_sum| else 0)
      else 0
    .openPos isin g.gname g.kaufe.length g.verkaeufe.length
      kauf_sum verkauf_sum kauf_stueck verkauf_stueck open_stueck
      avg_kauf_preis invested realized_pnl

/-- Is the position the Closed variant? -/
def Position.isClosed : Position → Bool
  | .closedPos .. => true
  | .openPos .. => false

/-- The realized pnl of a Closed position. -/
def Position.closedPnl : Position → Option ℚ
  | .closedPos _ _ _ _ _ _ _ _ _ pnl _ _ _ _ => some pnl
  | .openPos .. => none

/-- The average buy price of an Open position. -/
def Position.avgKaufPreis : Position → Option ℚ
  | .openPos _ _ _ _ _ _ _ _ _ avg _ _ => some avg
  | .closedPos .. => none

/-- The invested value of an Open position. -/
def Position.investedVal : Position → Option ℚ
  | .openPos _ _ _ _ _ _ _ _ _ _ inv _ => some inv
  | .closedPos .. => none

/-- The realized partial-sale P&L of an Open position. -/
def Position.realizedPnl : Position → Option ℚ
  | .openPos _ _ _ _ _ _ _ _ _ _ _ r => some r
  | .closedPos .. => none

/-- The remaining open quantity recorded in the position. -/
def Position.openStueck : Position → ℚ
  | .closedPos _ _ _ _ _ _ _ _ os _ _ _ _ _ => os
  | .openPos _ _ _ _ _ _ _ _ os _ _ _ => os


/-! ### Ledger accessor lemmas -/

theorem findBasis_nil (k : Str) : findBasis [] k = none := rfl

theorem findBasis_cons (p : Str × CostBasis) (m : List (Str × CostBasis)) (k : Str) :
    findBasis (p :: m) k = if p.1 = k then some p.2 else findBasis m k := by
  by_cases h : p.1 = k
  · simp [findBasis, List.find?, h]
  · have hb : (p.1 == k) = false := by simp [h]
    simp [findBasis, List.find?, hb, h]

theorem findBasis_append_of_none {m : List (Str × CostBasis)} {k : Str}
    (i : Str) (b : CostBasis) (h : findBasis m k = none) :
    findBasis (m ++ [(i, b)]) k = if i = k then some b else none := by
  induction m with
  | nil => simp [findBasis_cons, findBasis_nil]
  | cons p rest ih =>
    rw [findBasis_cons] at h
    by_cases hp : p.1 = k
    · simp [hp] at h
    · rw [List.cons_append, findBasis_cons, if_neg hp]
      rw [if_neg hp] at h
      exact ih h

theorem findBasis_append_of_some {m : List (Str × CostBasis)} {k : Str} {b0 : CostBasis}
    (i : Str) (b : CostBasis) (h : findBasis m k = some b0) :
    findBasis (m ++ [(i, b)]) k = some b0 := by
  induction m with
  | nil => simp [findBasis_nil] at h
  | cons p rest ih =>
    rw [findBasis_cons] at h
    by_cases hp : p.1 = k
    · rw [List.cons_append, findBasis_cons, if_pos hp]
      rw [if_pos hp] at h
      exact h
    · rw [List.cons_append, findBasis_cons, if_neg hp]
      rw [if_neg hp] at h
      exact ih h

theorem findBasis_setBasis_self (m : List (Str × CostBasis)) (k : Str) (b : CostBasis) :
    findBasis (setBasis m k b) k = some b := by
  induction m with
  | nil => simp [setBasis, findBasis_cons]
  | cons p rest ih =>
    obtain ⟨k', b'⟩ := p
    simp only [setBasis]
    by_cases hp : k' = k
    · rw [if_pos hp, findBasis_cons, if_pos hp]
    · rw [if_neg hp, findBasis_cons, if_neg hp]
      exact ih

theorem findBasis_setBasis_other (m : List (Str × CostBasis)) (k k' : Str) (b : CostBasis)
    (h : k' ≠ k) :
    findBasis (setBasis m k b) k' = findBasis m k' := by
  induction m with
  | nil =>
    show findBasis [(k, b)] k' = findBasis [] k'
    rw [findBasis_cons, if_neg (fun hc : (k, b).1 = k' => h hc.symm)]
  | cons p rest ih =>
    obtain ⟨k0, b0⟩ := p
    simp only [setBasis]
    by_cases hp : k0 = k
    · subst hp
      rw [if_pos rfl, findBasis_cons, findBasis_cons]
      simp only []
      rw [if_neg (fun hc => h hc.symm), if_neg (fun hc => h hc.symm)]
    · rw [if_neg hp, findBasis_cons, findBasis_cons]
      by_cases hq : k0 = k'
      · rw [if_pos hq, if_pos hq]
      · rw [if_neg hq, if_neg hq]
        exact ih

/-- Creating a missing ledger entry with zero cost and quantity changes no
accessor value. -/
theorem accessors_create (m : List (Str × CostBasis)) (i : Str) (nm : Str) (k : Str) :
    costOf (m ++ [(i, ⟨0, 0, nm⟩)]) k = costOf m k ∧
    stueckOf (m ++ [(i, ⟨0, 0, nm⟩)]) k = stueckOf m k := by
  by_cases hk : findBasis m k = none
  · have hap := findBasis_append_of_none i (⟨0, 0, nm⟩ : CostBasis) hk
    by_cases hik : i = k
    · subst hik
      rw [if_pos rfl] at hap
      constructor <;> simp [costOf, stueckOf, hap, hk]
    · rw [if_neg hik] at hap
      constructor <;> simp [costOf, stueckOf, hap, hk]
  · obtain ⟨b0, hb0⟩ := Option.ne_none_iff_exists'.mp hk
    have hap := findBasis_append_of_some i (⟨0, 0, nm⟩ : CostBasis) hb0
    constructor <;> simp [costOf, stueckOf, hap, hb0]

theorem pnlSumFor_append (k : Str) (es : List PnlEvent) (e : PnlEvent) :
    pnlSumFor k (es ++ [e]) = pnlSumFor k es + (if e.eisin = k then e.pnl else 0) := by
  by_cases h : e.eisin = k
  · have hb : (e.eisin == k) = true := by simp [h]
    simp [pnlSumFor, List.filter_append, hb, h]
  · have hb : (e.eisin == k) = false := by simp [h]
    simp [pnlSumFor, List.filter_append, hb, h]

/-- The ledger values read by one step of the pass: after the entry-creation
line, the value bound to `basis` has exactly the accessors of the incoming
state. -/
theorem stepB_facts (st : PnlState) (t : Transaction) :
    findBasis (stepM0 st t) t.isin = some (stepB st t) ∧
    (stepB st t).total_cost = costOf st.basisMap t.isin ∧
    (stepB st t).total_stueck = stueckOf st.basisMap t.isin ∧
    (∀ k, costOf (stepM0 st t) k = costOf st.basisMap k ∧
          stueckOf (stepM0 st t) k = stueckOf st.basisMap k) := by
  by_cases hpres : (findBasis st.basisMap t.isin).isSome
  · obtain ⟨b0, hb0⟩ := Option.isSome_iff_exists.mp hpres
    have hm0 : stepM0 st t = st.basisMap := by simp [stepM0, hpres]
    have hb : stepB st t = b0 := by simp [stepB, hm0, hb0]
    refine ⟨by rw [hm0, hb0, hb], by simp [hb, costOf, hb0],
      by simp [hb, stueckOf, hb0], fun k => by rw [hm0]; exact ⟨rfl, rfl⟩⟩
  · have hnone : findBasis st.basisMap t.isin = none :=
      Option.not_isSome_iff_eq_none.mp hpres
    have hm0 : stepM0 st t = st.basisMap ++ [(t.isin, ⟨0, 0, t.name⟩)] := by
      simp [stepM0, hpres]
    have hap := findBasis_append_of_none (m := st.basisMap) t.isin
      (⟨0, 0, t.name⟩ : CostBasis) hnone
    rw [if_pos rfl] at hap
    have hb : stepB st t = ⟨0, 0, t.name⟩ := by simp [stepB, hm0, hap]
    refine ⟨by rw [hm0, hap, hb], by simp [hb, costOf, hnone],
      by simp [hb, stueckOf, hnone],
      fun k => by rw [hm0]; exact accessors_create st.basisMap t.isin t.name k⟩

theorem pnlStep_kauf (st : PnlState) (t : Transaction)
    (hne : t.isin ≠ []) (hk : t.is_kauf = true) :
    (pnlStep st t).events = st.events ∧
    costOf (pnlStep st t).basisMap t.isin = costOf st.basisMap t.isin + |t.betrag| ∧
    stueckOf (pnlStep st t).basisMap t.isin = stueckOf st.basisMap t.isin + t.stueck ∧
    (∀ k, k ≠ t.isin → costOf (pnlStep st t).basisMap k = costOf st.basisMap k ∧
      stueckOf (pnlStep st t).basisMap k = stueckOf st.basisMap k) := by
  obtain ⟨hfind, hc, hs, hacc⟩ := stepB_facts st t
  have hstep : pnlStep st t =
      PnlState.mk
        (setBasis (stepM0 st t) t.isin
          (CostBasis.mk ((stepB st t).total_cost + |t.betrag|)
            ((stepB st t).total_stueck + t.stueck) (stepB st t).bname))
        st.events := by
    simp [pnlStep, hne, hk]
  rw [hstep]
  refine ⟨rfl, ?_, ?_, ?_⟩
  · simp only [costOf, findBasis_setBasis_self]
    rw [hc]; rfl
  · simp only [stueckOf, findBasis_setBasis_self]
    rw [hs]; rfl
  · intro k hkne
    have hother := findBasis_setBasis_other (stepM0 st t) t.isin k
      (CostBasis.mk ((stepB st t).total_cost + |t.betrag|)
        ((stepB st t).total_stueck + t.stueck) (stepB st t).bname) hkne
    constructor
    · simp only [costOf, hother]
      have := (hacc k).1
      simpa [costOf] using this
    · simp only [stueckOf, hother]
      have := (hacc k).2
      simpa [stueckOf] using this

theorem pnlStep_sell (st : PnlState) (t : Transaction)
    (hne : t.isin ≠ []) (hnk : t.is_kauf = false) (hv : t.is_verkauf = true)
    (hq : 0 < t.stueck) (hpos : 0 < stueckOf st.basisMap t.isin) :
    (pnlStep st t).events = st.events ++
      [PnlEvent.mk t.datum
        (t.betrag - costOf st.basisMap t.isin / stueckOf st.basisMap t.isin * t.stueck)
        (str "Trade") ((stepB st t).bname.take 30) t.isin] ∧
    costOf (pnlStep st t).basisMap t.isin =
      costOf st.basisMap t.isin -
        costOf st.basisMap t.isin / stueckOf st.basisMap t.isin * t.stueck ∧
    stueckOf (pnlStep st t).basisMap t.isin = stueckOf st.basisMap t.isin - t.stueck ∧
    (∀ k, k ≠ t.isin → costOf (pnlStep st t).basisMap k = costOf st.basisMap k ∧
      stueckOf (pnlStep st t).basisMap k = stueckOf st.basisMap k) := by
  obtain ⟨hfind, hc, hs, hacc⟩ := stepB_facts st t
  have hbs : 0 < (stepB st t).total_stueck := by rw [hs]; exact hpos
  have hstep : pnlStep st t =
      PnlState.mk
        (setBasis (stepM0 st t) t.isin
          (CostBasis.mk
            ((stepB st t).total_cost -
              (stepB st t).total_cost / (stepB st t).total_stueck * t.stueck)
            ((stepB st t).total_stueck - t.stueck) (stepB st t).bname))
        (st.events ++
          [PnlEvent.mk t.datum
            (t.betrag - (stepB st t).total_cost / (stepB st t).total_stueck * t.stueck)
            (str "Trade") ((stepB st t).bname.take 30) t.isin]) := by
    simp [pnlStep, hne, hnk, hv, hq, hbs]
  rw [hstep]
  refine ⟨by rw [hc, hs], ?_, ?_, ?_⟩
  · simp only [costOf, findBasis_setBasis_self]
    rw [hc, hs]; rfl
  · simp only [stueckOf, findBasis_setBasis_self]
    rw [hs]; rfl
  · intro k hkne
    have hother := findBasis_setBasis_other (stepM0 st t) t.isin k
      (CostBasis.mk
        ((stepB st t).total_cost -
          (stepB st t).total_cost / (stepB st t).total_stueck * t.stueck)
        ((stepB st t).total_stueck - t.stueck) (stepB st t).bname) hkne
    constructor
    · simp only [costOf, hother]
      have := (hacc k).1
      simpa [costOf] using this
    · simp only [stueckOf, hother]
      have := (hacc k).2
      simpa [stueckOf] using this

theorem pnlStep_skip (st : PnlState) (t : Transaction) (hnk : t.is_kauf = false)
    (h : t.is_verkauf = false ∨ ¬ 0 < t.stueck ∨ ¬ 0 < stueckOf st.basisMap t.isin) :
    (pnlStep st t).events = st.events ∧
    (∀ k, costOf (pnlStep st t).basisMap k = costOf st.basisMap k ∧
      stueckOf (pnlStep st t).basisMap k = stueckOf st.basisMap k) := by
  by_cases hni : t.isin = []
  · rw [pnlStep, if_pos hni]
    exact ⟨rfl, fun k => ⟨rfl, rfl⟩⟩
  · obtain ⟨hfind, hc, hs, hacc⟩ := stepB_facts st t
    have hcond : ¬ (t.is_verkauf = true ∧ 0 < t.stueck ∧ 0 < (stepB st t).total_stueck) := by
      rw [hs]
      rcases h with h | h | h
      · rintro ⟨hv, -, -⟩; rw [h] at hv; exact Bool.false_ne_true hv
      · rintro ⟨-, hq, -⟩; exact h hq
      · rintro ⟨-, -, hp⟩; exact h hp
    have hstep : pnlStep st t = PnlState.mk (stepM0 st t) st.events := by
      rw [pnlStep, if_neg hni]
      simp only [hnk, Bool.false_eq_true, if_false]
      by_cases hvq : t.is_verkauf = true ∧ 0 < t.stueck
      · rw [if_pos hvq]
        have : ¬ 0 < (stepB st t).total_stueck := fun hp => hcond ⟨hvq.1, hvq.2, hp⟩
        rw [if_neg this]
      · rw [if_neg hvq]
    rw [hstep]
    exact ⟨rfl, fun k => hacc k⟩

theorem pnlStep_isin_ne (st : PnlState) (t : Transaction) (k : Str) (h : t.isin ≠ k) :
    pnlSumFor k (pnlStep st t).events = pnlSumFor k st.events ∧
    costOf (pnlStep st t).basisMap k = costOf st.basisMap k ∧
    stueckOf (pnlStep st t).basisMap k = stueckOf st.basisMap k := by
  by_cases hni : t.isin = []
  · rw [pnlStep, if_pos hni]
    exact ⟨rfl, rfl, rfl⟩
  · by_cases hk : t.is_kauf = true
    · obtain ⟨hev, -, -, hacc⟩ := pnlStep_kauf st t hni hk
      obtain ⟨h1, h2⟩ := hacc k (fun hc => h hc.symm)
      exact ⟨by rw [hev], h1, h2⟩
    · replace hk : t.is_kauf = false := by
        cases hb : t.is_kauf
        · rfl
        · exact absurd hb hk
      by_cases hsell : t.is_verkauf = true ∧ 0 < t.stueck ∧ 0 < stueckOf st.basisMap t.isin
      · obtain ⟨hev, -, -, hacc⟩ := pnlStep_sell st t hni hk hsell.1 hsell.2.1 hsell.2.2
        obtain ⟨h1, h2⟩ := hacc k (fun hc => h hc.symm)
        refine ⟨?_, h1, h2⟩
        rw [hev, pnlSumFor_append]
        simp [h]
      · have hs : t.is_verkauf = false ∨ ¬ 0 < t.stueck ∨ ¬ 0 < stueckOf st.basisMap t.isin := by
          by_cases hv : t.is_verkauf = true
          · by_cases hq : 0 < t.stueck
            · exact Or.inr (Or.inr (fun hp => hsell ⟨hv, hq, hp⟩))
            · exact Or.inr (Or.inl hq)
          · left
            cases hb : t.is_verkauf
            · rfl
            · exact absurd hb hv
        obtain ⟨hev, hacc⟩ := pnlStep_skip st t hk hs
        obtain ⟨h1, h2⟩ := hacc k
        exact ⟨by rw [hev], h1, h2⟩

theorem kaufeFor_cons (k : Str) (t : Transaction) (ts : List Transaction) :
    kaufeFor k (t :: ts) =
      if t.isin = k ∧ t.is_kauf = true then t :: kaufeFor k ts else kaufeFor k ts := by
  simp only [kaufeFor, List.filter_cons]
  by_cases h : t.isin = k ∧ t.is_kauf = true
  · have hb : (t.isin == k && t.is_kauf) = true := by
      simp [h.1, h.2]
    rw [if_pos hb, if_pos h]
  · have hb : (t.isin == k && t.is_kauf) = false := by
      rcases Decidable.not_and_iff_or_not.mp h with h' | h'
      · simp [h']
      · simp [Bool.not_eq_true] at h'
        simp [h']
    rw [hb, if_neg h]
    simp

theorem verkaeufeFor_cons (k : Str) (t : Transaction) (ts : List Transaction) :
    verkaeufeFor k (t :: ts) =
      if t.isin = k ∧ t.is_kauf = false then t :: verkaeufeFor k ts else verkaeufeFor k ts := by
  simp only [verkaeufeFor, List.filter_cons]
  by_cases h : t.isin = k ∧ t.is_kauf = false
  · have hb : (t.isin == k && !t.is_kauf) = true := by
      simp [h.1, h.2]
    rw [if_pos hb, if_pos h]
  · have hb : (t.isin == k && !t.is_kauf) = false := by
      rcases Decidable.not_and_iff_or_not.mp h with h' | h'
      · simp [h']
      · have : t.is_kauf = true := by
          cases hb : t.is_kauf
          · exact absurd hb h'
          · rfl
        simp [this]
    rw [hb, if_neg h]
    simp

/-- The conservation law of the average-cost pass, per instrument `k`, for a
trade list whose `k`-buys are well-formed (positive quantity, non-positive
amount, not simultaneously sales) and whose `k`-sales are all fully matched:
the realized event deltas differ from `verkauf_sum - kauf_abs_sum` exactly by
the cost still held in the ledger, the ledger quantity tracks
`kauf_stueck - verkauf_stueck`, and the ledger never goes negative (with zero
quantity forcing zero cost). -/
theorem pnlFold (k : Str) (hk : k ≠ []) :
    ∀ (l : List Transaction) (st : PnlState),
    (∀ t ∈ l, t.isin = k →
      ((t.is_kauf = true ∧ t.is_verkauf = false ∧ 0 < t.stueck ∧ t.betrag ≤ 0) ∨
       (t.is_kauf = false ∧ t.is_verkauf = true))) →
    sellsMatched k st l = true →
    0 ≤ stueckOf st.basisMap k →
    (stueckOf st.basisMap k = 0 → costOf st.basisMap k = 0) →
    pnlSumFor k (l.foldl pnlStep st).events =
      pnlSumFor k st.events + verkaufSum k l - kaufAbsSum k l
        + (costOf (l.foldl pnlStep st).basisMap k - costOf st.basisMap k) ∧
    stueckOf (l.foldl pnlStep st).basisMap k =
      stueckOf st.basisMap k + kaufStueckSum k l - verkaufStueckSum k l ∧
    0 ≤ stueckOf (l.foldl pnlStep st).basisMap k ∧
    (stueckOf (l.foldl pnlStep st).basisMap k = 0 →
      costOf (l.foldl pnlStep st).basisMap k = 0) := by
  intro l
  induction l with
  | nil =>
    intro st _ _ hnn hzc
    refine ⟨by simp [verkaufSum, kaufAbsSum, verkaeufeFor, kaufeFor], ?_, hnn, hzc⟩
    simp [kaufStueckSum, verkaufStueckSum, verkaeufeFor, kaufeFor]
  | cons t ts ih =>
    intro st hflags hsm hnn hzc
    simp only [sellsMatched, Bool.and_eq_true] at hsm
    have hsm' : sellsMatched k (pnlStep st t) ts = true := hsm.2
    have hflags' : ∀ u ∈ ts, u.isin = k →
        ((u.is_kauf = true ∧ u.is_verkauf = false ∧ 0 < u.stueck ∧ u.betrag ≤ 0) ∨
         (u.is_kauf = false ∧ u.is_verkauf = true)) :=
      fun u hu => hflags u (List.mem_cons_of_mem _ hu)
    simp only [List.foldl_cons]
    by_cases hik : t.isin = k
    · have hne : t.isin ≠ [] := by rw [hik]; exact hk
      rcases hflags t (List.mem_cons_self _ _) hik with hbuy | hsell
      · -- a buy of instrument k
        obtain ⟨hkf, hvf, hqpos, hneg⟩ := hbuy
        obtain ⟨hev, hcost, hstueck, -⟩ := pnlStep_kauf st t hne hkf
        rw [hik] at hcost hstueck
        have hnn' : 0 ≤ stueckOf (pnlStep st t).basisMap k := by
          rw [hstueck]; linarith
        have hzc' : stueckOf (pnlStep st t).basisMap k = 0 →
            costOf (pnlStep st t).basisMap k = 0 := by
          intro h0; rw [hstueck] at h0; linarith
        obtain ⟨ihp, ihs, ihnn, ihzc⟩ := ih (pnlStep st t) hflags' hsm' hnn' hzc'
        have hvk : verkaufSum k (t :: ts) = verkaufSum k ts := by
          rw [verkaufSum, verkaeufeFor_cons, if_neg]
          · rfl
          · rintro ⟨-, hf⟩; rw [hkf] at hf; simp at hf
        have hvs : verkaufStueckSum k (t :: ts) = verkaufStueckSum k ts := by
          rw [verkaufStueckSum, verkaeufeFor_cons, if_neg]
          · rfl
          · rintro ⟨-, hf⟩; rw [hkf] at hf; simp at hf
        have hka : kaufAbsSum k (t :: ts) = |t.betrag| + kaufAbsSum k ts := by
          rw [kaufAbsSum, kaufeFor_cons, if_pos ⟨hik, hkf⟩]
          simp [kaufAbsSum]
        have hks : kaufStueckSum k (t :: ts) = t.stueck + kaufStueckSum k ts := by
          rw [kaufStueckSum, kaufeFor_cons, if_pos ⟨hik, hkf⟩]
          simp [kaufStueckSum]
        have hevsum : pnlSumFor k (pnlStep st t).events = pnlSumFor k st.events := by
          rw [hev]
        refine ⟨?_, ?_, ihnn, ihzc⟩
        · rw [ihp, hevsum, hvk, hka, hcost]; ring
        · rw [ihs, hstueck, hks, hvs]; ring
      · -- a matched sale of instrument k
        obtain ⟨hkf, hv⟩ := hsell
        have hcond := hsm.1
        rw [if_pos ⟨hik, hkf⟩] at hcond
        have hmatch := of_decide_eq_true hcond
        obtain ⟨hq, hle⟩ := hmatch
        have hpos : 0 < stueckOf st.basisMap t.isin := by
          rw [hik]; exact lt_of_lt_of_le hq hle
        obtain ⟨hev, hcost, hstueck, -⟩ :=
          pnlStep_sell st t hne hkf hv hq hpos
        rw [hik] at hev hcost hstueck
        have hsne : stueckOf st.basisMap k ≠ 0 := by
          rw [hik] at hpos; exact ne_of_gt hpos
        have hnn' : 0 ≤ stueckOf (pnlStep st t).basisMap k := by
          rw [hstueck]; linarith
        have hzc' : stueckOf (pnlStep st t).basisMap k = 0 →
            costOf (pnlStep st t).basisMap k = 0 := by
          intro h0
          rw [hstueck, sub_eq_zero] at h0
          rw [hcost, h0.symm]
          field_simp
        obtain ⟨ihp, ihs, ihnn, ihzc⟩ := ih (pnlStep st t) hflags' hsm' hnn' hzc'
        have hvk : verkaufSum k (t :: ts) = t.betrag + verkaufSum k ts := by
          rw [verkaufSum, verkaeufeFor_cons, if_pos ⟨hik, hkf⟩]
          simp [verkaufSum]
        have hvs : verkaufStueckSum k (t :: ts) = t.stueck + verkaufStueckSum k ts := by
          rw [verkaufStueckSum, verkaeufeFor_cons, if_pos ⟨hik, hkf⟩]
          simp [verkaufStueckSum]
        have hka : kaufAbsSum k (t :: ts) = kaufAbsSum k ts := by
          rw [kaufAbsSum, kaufeFor_cons, if_neg]
          · rfl
          · rintro ⟨-, hf⟩; rw [hkf] at hf; simp at hf
        have hks : kaufStueckSum k (t :: ts) = kaufStueckSum k ts := by
          rw [kaufStueckSum, kaufeFor_cons, if_neg]
          · rfl
          · rintro ⟨-, hf⟩; rw [hkf] at hf; simp at hf
        have hevsum : pnlSumFor k (pnlStep st t).events =
            pnlSumFor k st.events +
              (t.betrag - costOf st.basisMap k / stueckOf st.basisMap k * t.stueck) := by
          rw [hev, pnlSumFor_append]
          simp
        refine ⟨?_, ?_, ihnn, ihzc⟩
        · rw [ihp, hevsum, hvk, hka, hcost]; ring
        · rw [ihs, hstueck, hks, hvs]; ring
    · -- a transaction of some other instrument
      obtain ⟨hps, hc, hs⟩ := pnlStep_isin_ne st t k hik
      have hnn' : 0 ≤ stueckOf (pnlStep st t).basisMap k := by rw [hs]; exact hnn
      have hzc' : stueckOf (pnlStep st t).basisMap k = 0 →
          costOf (pnlStep st t).basisMap k = 0 := by
        rw [hs, hc]; exact hzc
      obtain ⟨ihp, ihs, ihnn, ihzc⟩ := ih (pnlStep st t) hflags' hsm' hnn' hzc'
      have hvk : verkaufSum k (t :: ts) = verkaufSum k ts := by
        rw [verkaufSum, verkaeufeFor_cons, if_neg]
        · rfl
        · rintro ⟨hf, -⟩; exact hik hf
      have hvs : verkaufStueckSum k (t :: ts) = verkaufStueckSum k ts := by
        rw [verkaufStueckSum, verkaeufeFor_cons, if_neg]
        · rfl
        · rintro ⟨hf, -⟩; exact hik hf
      have hka : kaufAbsSum k (t :: ts) = kaufAbsSum k ts := by
        rw [kaufAbsSum, kaufeFor_cons, if_neg]
        · rfl
        · rintro ⟨hf, -⟩; exact hik hf
      have hks : kaufStueckSum k (t :: ts) = kaufStueckSum k ts := by
        rw [kaufStueckSum, kaufeFor_cons, if_neg]
        · rfl
        · rintro ⟨hf, -⟩; exact hik hf
      refine ⟨?_, ?_, ihnn, ihzc⟩
      · rw [ihp, hps, hvk, hka, hc]
      · rw [ihs, hs, hks, hvs]

theorem insertChrono_perm (t : Transaction) (l : List Transaction) :
    (insertChrono t l).Perm (t :: l) := by
  induction l with
  | nil => exact List.Perm.refl _
  | cons u us ih =>
    rw [insertChrono]
    by_cases h : dateLe u.datum t.datum
    · rw [if_pos h]
      exact (ih.cons u).trans (List.Perm.swap _ _ _)
    · rw [if_neg h]

theorem sortChrono_perm (l : List Transaction) : (sortChrono l).Perm l := by
  suffices h : ∀ (l acc : List Transaction),
      (l.foldl (fun acc t => insertChrono t acc) acc).Perm (acc ++ l) by
    simpa using h l []
  intro l
  induction l with
  | nil => intro acc; simp
  | cons t ts ih =>
    intro acc
    simp only [List.foldl_cons]
    refine (ih (insertChrono t acc)).trans ?_
    refine (List.Perm.append_right ts (insertChrono_perm t acc)).trans ?_
    exact List.perm_middle.symm

theorem sums_of_perm (k : Str) {l₁ l₂ : List Transaction} (h : l₁.Perm l₂) :
    verkaufSum k l₁ = verkaufSum k l₂ ∧ kaufSum k l₁ = kaufSum k l₂ ∧
    kaufAbsSum k l₁ = kaufAbsSum k l₂ ∧
    kaufStueckSum k l₁ = kaufStueckSum k l₂ ∧
    verkaufStueckSum k l₁ = verkaufStueckSum k l₂ := by
  refine ⟨((h.filter _).map _).sum_eq, ((h.filter _).map _).sum_eq,
    ((h.filter _).map _).sum_eq, ((h.filter _).map _).sum_eq,
    ((h.filter _).map _).sum_eq⟩

theorem abs_sum_of_nonpos :
    ∀ L : List Transaction, (∀ t ∈ L, t.betrag ≤ 0) →
    (L.map (fun t => |t.betrag|)).sum = -(L.map (·.betrag)).sum := by
  intro L
  induction L with
  | nil => intro _; simp
  | cons t ts ih =>
    intro h
    simp only [List.map_cons, List.sum_cons]
    rw [ih (fun u hu => h u (List.mem_cons_of_mem _ hu)),
      abs_of_nonpos (h t (List.mem_cons_self _ _))]
    ring

/-- **C1 (amended).** For an instrument `k` whose trades are exactly closed
(bought quantity equals sold quantity), where every trade of `k` is a
well-formed buy (positive quantity, non-positive amount) or sale
(mutually-exclusive flags), and where every sale of `k` is fully matched
during the chronological pass (positive quantity not exceeding the ledger's
accumulated quantity at its turn), the sum of the per-sale `PnlEvent` deltas
produced by the pass equals `verkauf_sum + kauf_sum` (buy amounts negative)
exactly — in particular within the `1e-6` tolerance. -/
theorem closed_position_pnl_consistency (l : List Transaction) (k : Str)
    (hk : k ≠ [])
    (hflags : ∀ t ∈ l, t.isin = k →
      ((t.is_kauf = true ∧ t.is_verkauf = false ∧ 0 < t.stueck ∧ t.betrag ≤ 0) ∨
       (t.is_kauf = false ∧ t.is_verkauf = true)))
    (hmatched : sellsMatched k ⟨[], []⟩ (sortChrono l) = true)
    (hclosed : kaufStueckSum k l = verkaufStueckSum k l) :
    pnlSumFor k (pnlTradeEvents l) = verkaufSum k l + kaufSum k l := by
  have hperm := sortChrono_perm l
  obtain ⟨hv, hkf, hka, hks, hvs⟩ := sums_of_perm k hperm
  have hflags' : ∀ t ∈ sortChrono l, t.isin = k →
      ((t.is_kauf = true ∧ t.is_verkauf = false ∧ 0 < t.stueck ∧ t.betrag ≤ 0) ∨
       (t.is_kauf = false ∧ t.is_verkauf = true)) :=
    fun t ht => hflags t (hperm.mem_iff.mp ht)
  have hinit_s : stueckOf (⟨[], []⟩ : PnlState).basisMap k = 0 := rfl
  have hinit_c : costOf (⟨[], []⟩ : PnlState).basisMap k = 0 := rfl
  obtain ⟨hp, hs, -, hzc⟩ := pnlFold k hk (sortChrono l) ⟨[], []⟩ hflags' hmatched
    (by rw [hinit_s]) (fun _ => hinit_c)
  have hfin_stueck :
      stueckOf ((sortChrono l).foldl pnlStep ⟨[], []⟩).basisMap k = 0 := by
    rw [hs, hinit_s, hks, hvs, hclosed]; ring
  have hfin_cost := hzc hfin_stueck
  have habs : kaufAbsSum k (sortChrono l) = -kaufSum k (sortChrono l) := by
    refine abs_sum_of_nonpos (kaufeFor k (sortChrono l)) ?_
    intro t ht
    obtain ⟨hmem, hpred⟩ := List.mem_filter.mp ht
    rw [Bool.and_eq_true] at hpred
    have hik : t.isin = k := by simpa using hpred.1
    rcases hflags' t hmem hik with hbuy | hsell
    · exact hbuy.2.2.2
    · rw [hsell.1] at hpred
      simpa using hpred.2
  have hsum0 : pnlSumFor k (pnlTradeEvents l) =
      verkaufSum k (sortChrono l) - kaufAbsSum k (sortChrono l) := by
    have := hp
    rw [hinit_c, hfin_cost] at this
    simpa [pnlTradeEvents, pnlPass, pnlSumFor] using this
  rw [hsum0, habs, hv, hkf]
  ring

/-! ### Concrete inputs for the engine claims -/

/-- A twelve-character instrument id used by the concrete engine examples. -/
def exIsin : Str := str "DE0000000001"

/-- Counterexample input: a sale of 5 units for 500 *before* any purchase,
followed by a purchase of 5 units for 400.  Net quantity is `0`, so the
position is classified Closed, but the unmatched sale produced no event. -/
def cexSell : Transaction :=
  { datum := ⟨2024, 1, 10⟩, valuta := ⟨2024, 1, 10⟩, betrag := 500,
    status := str "gebucht", verwendungszweck := [], iban := [],
    typ := str "Order", isin := exIsin, name := str "Example AG",
    stueck := 5, is_kauf := false, is_verkauf := true }

/-- Counterexample input: the later purchase. -/
def cexBuy : Transaction :=
  { datum := ⟨2024, 2, 10⟩, valuta := ⟨2024, 2, 10⟩, betrag := -400,
    status := str "gebucht", verwendungszweck := [], iban := [],
    typ := str "Order", isin := exIsin, name := str "Example AG",
    stueck := 5, is_kauf := true, is_verkauf := false }

/-- The counterexample trade list. -/
def cexList : List Transaction := [cexSell, cexBuy]

/-- **C1 (counterexample).** On `cexList` the instrument's position is
classified Closed by the code (`|open_stueck| < 0.001`), yet the sum of the
per-sale `PnlEvent` deltas of the chronological pass is `0` while
`verkauf_sum + kauf_sum = 100`: the difference `100` is far outside the
claimed `1e-6` tolerance, so the claim as stated is false. -/
theorem closed_position_pnl_claim_cex :
    (Position.isClosed (positionForIsin exIsin
      ((findGroup (trades_by_isin (tradesFilter cexList)) exIsin).getD
        ⟨[], [], []⟩)) = true) ∧
    pnlSumFor exIsin (pnlTradeEvents (tradesFilter cexList)) = 0 ∧
    verkaufSum exIsin cexList + kaufSum exIsin cexList = 100 ∧
    ¬ (|pnlSumFor exIsin (pnlTradeEvents (tradesFilter cexList)) -
        (verkaufSum exIsin cexList + kaufSum exIsin cexList)| ≤ 1 / 1000000) := by
  refine ⟨?_, ?_, ?_, ?_⟩ <;> norm_num [cexSell, cexBuy, cexList, exIsin, str, tradesFilter, trade_types, umlUe, chA, chUe, trades_by_isin, groupStep, findGroup, setGroup, positionForIsin, Position.isClosed, pnlTradeEvents, pnlPass, sortChrono, insertChrono, dateLe, pnlStep, stepM0, stepB, findBasis, setBasis, costOf, stueckOf, pnlSumFor, kaufSum, verkaufSum, kaufeFor, verkaeufeFor, kaufStueckSum, verkaufStueckSum, sellsMatched, minDateList, maxDateList, dateLt, List.filter, List.find?]

/-- Witness input for the amended C1: a purchase of 10 units for 1000
followed by a fully matched sale of the 10 units for 1200. -/
def witBuy : Transaction :=
  { datum := ⟨2024, 1, 10⟩, valuta := ⟨2024, 1, 10⟩, betrag := -1000,
    status := str "gebucht", verwendungszweck := [], iban := [],
    typ := str "Order", isin := exIsin, name := str "Example AG",
    stueck := 10, is_kauf := true, is_verkauf := false }

/-- Witness input for the amended C1: the closing sale. -/
def witSell : Transaction :=
  { datum := ⟨2024, 2, 10⟩, valuta := ⟨2024, 2, 10⟩, betrag := 1200,
    status := str "gebucht", verwendungszweck := [], iban := [],
    typ := str "Order", isin := exIsin, name := str "Example AG",
    stueck := 10, is_kauf := false, is_verkauf := true }

/-- The witness trade list for the amended C1. -/
def witList : List Transaction := [witBuy, witSell]

theorem closed_position_pnl_consistency_witness :
    sellsMatched exIsin ⟨[], []⟩ (sortChrono witList) = true ∧
    kaufStueckSum exIsin witList = verkaufStueckSum exIsin witList ∧
    pnlSumFor exIsin (pnlTradeEvents witList) =
      verkaufSum exIsin witList + kaufSum exIsin witList :=
  ⟨by norm_num [cexSell, cexBuy, cexList, witBuy, witSell, witList, exIsin, str, tradesFilter, trade_types, umlUe, chA, chUe, trades_by_isin, groupStep, findGroup, setGroup, positionForIsin, Position.isClosed, pnlTradeEvents, pnlPass, sortChrono, insertChrono, dateLe, pnlStep, stepM0, stepB, findBasis, setBasis, costOf, stueckOf, pnlSumFor, kaufSum, verkaufSum, kaufeFor, verkaeufeFor, kaufStueckSum, verkaufStueckSum, sellsMatched, minDateList, maxDateList, dateLt, List.filter, List.find?],
   by norm_num [cexSell, cexBuy, cexList, witBuy, witSell, witList, exIsin, str, tradesFilter, trade_types, umlUe, chA, chUe, trades_by_isin, groupStep, findGroup, setGroup, positionForIsin, Position.isClosed, pnlTradeEvents, pnlPass, sortChrono, insertChrono, dateLe, pnlStep, stepM0, stepB, findBasis, setBasis, costOf, stueckOf, pnlSumFor, kaufSum, verkaufSum, kaufeFor, verkaeufeFor, kaufStueckSum, verkaufStueckSum, sellsMatched, minDateList, maxDateList, dateLt, List.filter, List.find?],
   closed_position_pnl_consistency witList exIsin (by decide)
     (by intro t ht hik
         simp only [witList, List.mem_cons, List.mem_singleton,
           List.not_mem_nil, or_false] at ht
         rcases ht with rfl | rfl
         · exact Or.inl ⟨rfl, rfl, by norm_num [witBuy], by norm_num [witBuy]⟩
         · exact Or.inr ⟨rfl, rfl⟩)
     (by norm_num [cexSell, cexBuy, cexList, witBuy, witSell, witList, exIsin, str, tradesFilter, trade_types, umlUe, chA, chUe, trades_by_isin, groupStep, findGroup, setGroup, positionForIsin, Position.isClosed, pnlTradeEvents, pnlPass, sortChrono, insertChrono, dateLe, pnlStep, stepM0, stepB, findBasis, setBasis, costOf, stueckOf, pnlSumFor, kaufSum, verkaufSum, kaufeFor, verkaeufeFor, kaufStueckSum, verkaufStueckSum, sellsMatched, minDateList, maxDateList, dateLt, List.filter, List.find?])
     (by norm_num [cexSell, cexBuy, cexList, witBuy, witSell, witList, exIsin, str, tradesFilter, trade_types, umlUe, chA, chUe, trades_by_isin, groupStep, findGroup, setGroup, positionForIsin, Position.isClosed, pnlTradeEvents, pnlPass, sortChrono, insertChrono, dateLe, pnlStep, stepM0, stepB, findBasis, setBasis, costOf, stueckOf, pnlSumFor, kaufSum, verkaufSum, kaufeFor, verkaeufeFor, kaufStueckSum, verkaufStueckSum, sellsMatched, minDateList, maxDateList, dateLt, List.filter, List.find?])⟩

/-! ### C2: the worked example -/

/-- C2 input: a buy of 10 units at total cost 1000. -/
def c2Buy : Transaction :=
  { datum := ⟨2024, 3, 1⟩, valuta := ⟨2024, 3, 1⟩, betrag := -1000,
    status := str "gebucht", verwendungszweck := [], iban := [],
    typ := str "Order", isin := exIsin, name := str "Example AG",
    stueck := 10, is_kauf := true, is_verkauf := false }

/-- C2 input: the later sale of 4 units at proceeds 500. -/
def c2Sell : Transaction :=
  { datum := ⟨2024, 4, 1⟩, valuta := ⟨2024, 4, 1⟩, betrag := 500,
    status := str "gebucht", verwendungszweck := [], iban := [],
    typ := str "Order", isin := exIsin, name := str "Example AG",
    stueck := 4, is_kauf := false, is_verkauf := true }

/-- The C2 transaction list. -/
def c2List : List Transaction := [c2Buy, c2Sell]

/-- The position the engine computes for the C2 input. -/
def c2Position : Position :=
  positionForIsin exIsin
    ((findGroup (trades_by_isin (tradesFilter c2List)) exIsin).getD ⟨[], [], []⟩)

/-- **C2.** A buy of 10 units at total cost 1000 followed by a sell of 4
units at proceeds 500 yields: an average cost per unit of 100, a realized
P&L of 100 for the sale (both as the single per-sale `PnlEvent` delta and as
the open position's `realized_pnl`), and an Open (not Closed) position of 6
remaining units with invested value 600. -/
theorem avg_cost_worked_example :
    Position.avgKaufPreis c2Position = some 100 ∧
    Position.realizedPnl c2Position = some 100 ∧
    ((pnlTradeEvents c2List).map (·.pnl)) = [100] ∧
    Position.isClosed c2Position = false ∧
    Position.openStueck c2Position = 6 ∧
    Position.investedVal c2Position = some 600 := by
  refine ⟨?_, ?_, ?_, ?_, ?_, ?_⟩ <;>
    norm_num +decide [c2Position, c2Buy, c2Sell, c2List, exIsin, str, tradesFilter,
      trade_types, umlUe, chA, chUe, trades_by_isin, groupStep, findGroup,
      setGroup, positionForIsin, Position.isClosed, Position.avgKaufPreis,
      Position.realizedPnl, Position.openStueck, Position.investedVal,
      pnlTradeEvents, pnlPass, sortChrono, insertChrono, dateLe, pnlStep,
      stepM0, stepB, findBasis, setBasis, costOf, stueckOf, pnlSumFor,
      List.filter, List.find?]

/-! ### C3: degenerate sells are silent no-ops -/

/-- **C3.** A sell processed by the average-cost pass while the instrument's
accumulated quantity is not positive emits no `PnlEvent` and leaves every
instrument's accumulated cost and accumulated quantity unchanged: the sell is
a no-op, not an error. -/
theorem degenerate_sell_noop (st : PnlState) (t : Transaction)
    (_hv : t.is_verkauf = true) (hnk : t.is_kauf = false)
    (hz : stueckOf st.basisMap t.isin ≤ 0) :
    (pnlStep st t).events = st.events ∧
    (∀ k, costOf (pnlStep st t).basisMap k = costOf st.basisMap k ∧
      stueckOf (pnlStep st t).basisMap k = stueckOf st.basisMap k) :=
  pnlStep_skip st t hnk (Or.inr (Or.inr (not_lt.mpr hz)))

/-- Witness input for C3: a sell of 3 units with no prior holdings. -/
def w3Sell : Transaction :=
  { datum := ⟨2024, 5, 1⟩, valuta := ⟨2024, 5, 1⟩, betrag := 300,
    status := str "gebucht", verwendungszweck := [], iban := [],
    typ := str "Order", isin := exIsin, name := str "Example AG",
    stueck := 3, is_kauf := false, is_verkauf := true }

theorem degenerate_sell_noop_witness :
    w3Sell.is_verkauf = true ∧ w3Sell.is_kauf = false ∧
    stueckOf (PnlState.mk [] []).basisMap w3Sell.isin ≤ 0 ∧
    (pnlStep (PnlState.mk [] []) w3Sell).events = [] ∧
    costOf (pnlStep (PnlState.mk [] []) w3Sell).basisMap w3Sell.isin =
      costOf (PnlState.mk [] []).basisMap w3Sell.isin ∧
    stueckOf (pnlStep (PnlState.mk [] []) w3Sell).basisMap w3Sell.isin =
      stueckOf (PnlState.mk [] []).basisMap w3Sell.isin :=
  ⟨rfl, rfl, by simp [stueckOf, findBasis, List.find?],
   (degenerate_sell_noop (PnlState.mk [] []) w3Sell rfl rfl
     (by simp [stueckOf, findBasis, List.find?])).1,
   ((degenerate_sell_noop (PnlState.mk [] []) w3Sell rfl rfl
     (by simp [stueckOf, findBasis, List.find?])).2 w3Sell.isin).1,
   ((degenerate_sell_noop (PnlState.mk [] []) w3Sell rfl rfl
     (by simp [stueckOf, findBasis, List.find?])).2 w3Sell.isin).2⟩

/-! ## C6: the decimal round trip -/

/-- Head-of-string digit test. -/
def headIsDigit : Str → Bool
  | [] => false
  | c :: _ => isDigitC c

/-- The integer part of a valid locale-formatted decimal: nonempty, only
digits and `.` grouping characters, and it starts and ends with a digit. -/
def intPartOk (ip : Str) : Bool :=
  !ip.isEmpty && ip.all (fun c => isDigitC c || c = '.') &&
    headIsDigit ip && headIsDigit ip.reverse

/-- Strip one leading minus sign. -/
def stripMinus (s : Str) : Str :=
  match s with
  | [] => []
  | c :: r => if c = '-' then r else c :: r

/-- A valid locale-formatted decimal string: an optional minus sign, an
integer part with optional `.` grouping, and an optional `,` followed by a
nonempty all-digit fraction.  (When the part from the first comma on is
nonempty, its head is that comma, so only the fraction remainder needs
checking.) -/
def validGermanDecimal (s : Str) : Bool :=
  let b := stripMinus s
  let ip := b.takeWhile (fun c => c != ',')
  let fr := b.dropWhile (fun c => c != ',')
  intPartOk ip &&
    (fr.isEmpty || (!(fr.drop 1).isEmpty && (fr.drop 1).all isDigitC))

/-- Number of fraction digits of a locale-formatted decimal string. -/
def fracDigitsOf (s : Str) : ℕ :=
  ((s.dropWhile (fun c => c != ',')).drop 1).length

/-! ### Character-class facts -/

theorem isDigitC_not_ws {c : Char} (h : isDigitC c = true) : isWs c = false := by
  by_contra hws
  have hws' : isWs c = true := by
    cases hb : isWs c
    · exact absurd hb hws
    · rfl
  have : c = ' ' ∨ c = '\t' ∨ c = '\r' ∨ c = '\n' := by
    simp only [isWs, Char.isWhitespace, Bool.or_eq_true, decide_eq_true_eq] at hws'
    tauto
  rcases this with rfl | rfl | rfl | rfl <;> simp [isDigitC] at h

theorem isDigitC_ne_special {c : Char} (h : isDigitC c = true) :
    c ≠ '.' ∧ c ≠ ',' ∧ c ≠ '-' ∧ c ≠ '+' := by
  refine ⟨?_, ?_, ?_, ?_⟩ <;> rintro rfl <;> simp [isDigitC] at h

theorem trim_eq_of_no_ws {s : Str} (h : ∀ c ∈ s, isWs c = false) :
    trimChars s = s := by
  have hdw : ∀ (l : Str), (∀ c ∈ l, isWs c = false) → l.dropWhile isWs = l := by
    intro l hl
    cases l with
    | nil => rfl
    | cons c t => rw [List.dropWhile_cons_of_neg (by simp [hl c (List.mem_cons_self _ _)])]
  rw [trimChars, hdw s h, hdw s.reverse (fun c hc => h c (List.mem_reverse.mp hc)),
    List.reverse_reverse]

theorem takeWhile_append_stop {p : Char → Bool} :
    ∀ (A : Str) (x : Char) (B : Str), (∀ c ∈ A, p c = true) → p x = false →
    (A ++ x :: B).takeWhile p = A ∧ (A ++ x :: B).dropWhile p = x :: B := by
  intro A
  induction A with
  | nil =>
    intro x B _ hx
    constructor
    · simp [List.takeWhile_cons, hx]
    · simp [List.dropWhile_cons, hx]
  | cons a t ih =>
    intro x B hA hx
    have ha : p a = true := hA a (List.mem_cons_self _ _)
    obtain ⟨h1, h2⟩ := ih x B (fun c hc => hA c (List.mem_cons_of_mem _ hc)) hx
    constructor
    · simp only [List.cons_append, List.takeWhile_cons, ha, if_true, h1]
    · simp only [List.cons_append, List.dropWhile_cons, ha, if_true, h2]

theorem takeWhile_all {p : Char → Bool} :
    ∀ (A : Str), (∀ c ∈ A, p c = true) →
    A.takeWhile p = A ∧ A.dropWhile p = [] := by
  intro A
  induction A with
  | nil => intro _; exact ⟨rfl, rfl⟩
  | cons a t ih =>
    intro hA
    have ha : p a = true := hA a (List.mem_cons_self _ _)
    obtain ⟨h1, h2⟩ := ih (fun c hc => hA c (List.mem_cons_of_mem _ hc))
    constructor
    · simp only [List.takeWhile_cons, ha, if_true, h1]
    · simp only [List.dropWhile_cons, ha, if_true, h2]

/-! ### Digit-string lemmas -/

theorem natDigitsStr_all_digits (n : ℕ) : ∀ c ∈ natDigitsStr n, isDigitC c = true := by
  rw [natDigitsStr]
  by_cases h : n = 0
  · simp only [h, if_true]
    intro c hc
    simp only [List.mem_singleton] at hc
    subst hc; decide
  · simp only [h, if_false]
    intro c hc
    rw [List.mem_reverse] at hc
    obtain ⟨d, hd, rfl⟩ := List.mem_map.mp hc
    exact isDigitC_digitToChar (natToRevDigits_lt_ten n d hd)

theorem natDigitsStr_ne_nil (n : ℕ) : natDigitsStr n ≠ [] := by
  rw [natDigitsStr]
  by_cases h : n = 0
  · simp [h]
  · simp only [h, if_false]
    intro hc
    rw [List.reverse_eq_nil_iff, List.map_eq_nil_iff] at hc
    rw [natToRevDigits] at hc
    simp [h] at hc

theorem digitsToNat_eq_valLE :
    ∀ (ds : List ℕ), (∀ d ∈ ds, d < 10) →
    digitsToNat ((ds.map digitToChar).reverse) = valLE ds := by
  intro ds
  induction ds with
  | nil => intro _; rfl
  | cons d t ih =>
    intro h
    simp only [List.map_cons, List.reverse_cons]
    rw [digitsToNat, List.foldl_append]
    have : List.foldl (fun a c => 10 * a + digitVal c) 0 (t.map digitToChar).reverse =
        valLE t := ih (fun u hu => h u (List.mem_cons_of_mem _ hu))
    rw [this]
    simp only [List.foldl_cons, List.foldl_nil, valLE]
    rw [digitVal_digitToChar (h d (List.mem_cons_self _ _))]
    ring

theorem digitsToNat_natDigitsStr (n : ℕ) : digitsToNat (natDigitsStr n) = n := by
  rw [natDigitsStr]
  by_cases h : n = 0
  · simp [h, digitsToNat, digitVal]
  · rw [if_neg h, digitsToNat_eq_valLE _ (natToRevDigits_lt_ten n),
      valLE_natToRevDigits]

theorem digitsToNat_padZeros (k : ℕ) (s : Str) :
    digitsToNat (padZeros k s) = digitsToNat s := by
  rw [padZeros, digitsToNat, List.foldl_append]
  have : ∀ (m : ℕ) (a : ℕ), a = 0 →
      List.foldl (fun a c => 10 * a + digitVal c) a (List.replicate m '0') = 0 := by
    intro m
    induction m with
    | zero => intro a ha; simpa using ha
    | succ m ih =>
      intro a ha
      rw [List.replicate_succ, List.foldl_cons]
      exact ih _ (by simp [ha, digitVal])
  rw [this _ 0 rfl]
  rfl

theorem padZeros_length {k : ℕ} {s : Str} (h : s.length ≤ k) :
    (padZeros k s).length = k := by
  simp [padZeros]
  omega

theorem padZeros_all_digits {k : ℕ} {s : Str} (h : ∀ c ∈ s, isDigitC c = true) :
    ∀ c ∈ padZeros k s, isDigitC c = true := by
  intro c hc
  rcases List.mem_append.mp hc with h' | h'
  · have := List.eq_of_mem_replicate h'
    subst this; decide
  · exact h c h'

theorem natToRevDigits_length_le :
    ∀ (k n : ℕ), n < 10 ^ k → (natToRevDigits n).length ≤ k := by
  intro k
  induction k with
  | zero =>
    intro n hn
    interval_cases n
    simp [natToRevDigits]
  | succ k ih =>
    intro n hn
    by_cases h : n = 0
    · simp [h, natToRevDigits]
    · rw [natToRevDigits, dif_neg h]
      simp only [List.length_cons]
      have hlt : n / 10 < 10 ^ k := by
        rw [pow_succ] at hn
        omega
      have := ih (n / 10) hlt
      omega

theorem natDigitsStr_length_le {n k : ℕ} (hn : n < 10 ^ k) (hk : 1 ≤ k) :
    (natDigitsStr n).length ≤ k := by
  rw [natDigitsStr]
  by_cases h : n = 0
  · simpa [h] using hk
  · rw [if_neg h]
    simp only [List.length_reverse, List.length_map]
    exact natToRevDigits_length_le k n hn

theorem group3Rev_filter : ∀ (l : Str), (∀ c ∈ l, c ≠ '.') →
    (group3Rev l).filter (fun c => c != '.') = l := by
  intro l
  induction l using group3Rev.induct with
  | case1 l hle =>
    intro h
    rw [group3Rev, dif_pos hle]
    exact List.filter_eq_self.mpr (by simpa using h)
  | case2 l hgt ih =>
    intro h
    rw [group3Rev, dif_neg hgt, List.filter_append, List.filter_cons]
    simp only [bne_self_eq_false, if_false]
    rw [ih (fun c hc => h c (List.mem_of_mem_drop hc)),
      List.filter_eq_self.mpr (fun c hc => by simpa using h c (List.mem_of_mem_take hc))]
    exact List.take_append_drop 3 l

theorem group3Rev_mem : ∀ (l : Str) (c : Char), c ∈ group3Rev l → c ∈ l ∨ c = '.' := by
  intro l
  induction l using group3Rev.induct with
  | case1 l hle =>
    intro c hc
    rw [group3Rev, dif_pos hle] at hc
    exact Or.inl hc
  | case2 l hgt ih =>
    intro c hc
    rw [group3Rev, dif_neg hgt] at hc
    rcases List.mem_append.mp hc with h' | h'
    · exact Or.inl (List.mem_of_mem_take h')
    · rcases List.mem_cons.mp h' with rfl | h''
      · exact Or.inr rfl
      · rcases ih c h'' with h3 | h3
        · exact Or.inl (List.mem_of_mem_drop h3)
        · exact Or.inr h3

theorem groupDigits_filter {s : Str} (h : ∀ c ∈ s, c ≠ '.') :
    (groupDigits s).filter (fun c => c != '.') = s := by
  rw [groupDigits, List.filter_reverse,
    group3Rev_filter s.reverse (fun c hc => h c (List.mem_reverse.mp hc)),
    List.reverse_reverse]

theorem groupDigits_mem {s : Str} {c : Char} (h : c ∈ groupDigits s) :
    c ∈ s ∨ c = '.' := by
  rw [groupDigits, List.mem_reverse] at h
  rcases group3Rev_mem s.reverse c h with h' | h'
  · exact Or.inl (List.mem_reverse.mp h')
  · exact Or.inr h'

theorem cleanNum_append (a b : Str) : cleanNum (a ++ b) = cleanNum a ++ cleanNum b := by
  simp [cleanNum, List.filter_append]

theorem cleanNum_digits {s : Str} (h : ∀ c ∈ s, isDigitC c = true) :
    cleanNum s = s := by
  rw [cleanNum]
  rw [List.filter_eq_self.mpr (fun c hc => by
    simpa using (isDigitC_ne_special (h c hc)).1)]
  have : s.map (fun c => if c = ',' then '.' else c) = s.map id := by
    refine List.map_congr_left (fun c hc => ?_)
    rw [if_neg (isDigitC_ne_special (h c hc)).2.1]
    rfl
  rw [this, List.map_id]

theorem cleanNum_groupDigits {s : Str} (h : ∀ c ∈ s, isDigitC c = true) :
    cleanNum (groupDigits s) = s := by
  rw [cleanNum]
  have hne : ∀ c ∈ s, c ≠ '.' := fun c hc => (isDigitC_ne_special (h c hc)).1
  rw [groupDigits_filter hne]
  have : s.map (fun c => if c = ',' then '.' else c) = s.map id := by
    refine List.map_congr_left (fun c hc => ?_)
    rw [if_neg (isDigitC_ne_special (h c hc)).2.1]
    rfl
  rw [this, List.map_id]

theorem rhe_intCast (n : ℤ) : rhe (n : ℚ) = n := by
  rw [rhe]
  simp

/-- The rounding-free core of the formatter round-trip: parsing the
formatted string of `n/100` recovers `n/100` exactly. -/
theorem parse_format_of_cents (x : ℚ) (n : ℤ) (hx : x = (n : ℚ) / 100) :
    parse_german_number (format_german_number x 2) = x := by
  subst hx
  have hsc : rhe ((n : ℚ) / 100 * (10 : ℚ) ^ 2) = n := by
    have h1 : ((n : ℚ) / 100 * (10 : ℚ) ^ 2) = (n : ℚ) := by
      ring
    rw [h1, rhe_intCast]
  have hA := natDigitsStr_all_digits (n.natAbs / 100)
  have hAne := natDigitsStr_ne_nil (n.natAbs / 100)
  have hPd : ∀ c ∈ padZeros 2 (natDigitsStr (n.natAbs % 100)), isDigitC c = true :=
    padZeros_all_digits (natDigitsStr_all_digits _)
  have hPlen : (padZeros 2 (natDigitsStr (n.natAbs % 100))).length = 2 :=
    padZeros_length (natDigitsStr_length_le (Nat.mod_lt _ (by norm_num)) (by norm_num))
  set A := natDigitsStr (n.natAbs / 100) with hAdef
  set P := padZeros 2 (natDigitsStr (n.natAbs % 100)) with hPdef
  have hcore : format_german_number ((n : ℚ) / 100) 2 =
      (if rhe ((n : ℚ) / 100 * (10 : ℚ) ^ 2) < 0 then
        '-' :: (groupDigits A ++ ',' :: P) else groupDigits A ++ ',' :: P) := by
    rw [format_german_number]
    rw [hsc]
    rfl
  rw [hcore, hsc]
  -- characters and cleaning facts shared by both sign cases
  have hclean : cleanNum (groupDigits A ++ ',' :: P) = A ++ '.' :: P := by
    rw [cleanNum_append, cleanNum_groupDigits hA]
    have h1 : cleanNum (',' :: P) = '.' :: P := by
      rw [cleanNum]
      rw [List.filter_cons]
      have : ((',' : Char) != '.') = true := by decide
      rw [if_pos this]
      rw [List.filter_eq_self.mpr (fun c hc => by
        simpa using (isDigitC_ne_special (hPd c hc)).1)]
      simp only [List.map_cons, if_pos rfl]
      congr 1
      have : P.map (fun c => if c = ',' then '.' else c) = P.map id := by
        refine List.map_congr_left (fun c hc => ?_)
        rw [if_neg (isDigitC_ne_special (hPd c hc)).2.1]
        rfl
      rw [this, List.map_id]
    rw [h1]
  have hnws : ∀ c ∈ groupDigits A ++ ',' :: P, isWs c = false := by
    intro c hc
    rcases List.mem_append.mp hc with h' | h'
    · rcases groupDigits_mem h' with h'' | rfl
      · exact isDigitC_not_ws (hA c h'')
      · decide
    · rcases List.mem_cons.mp h' with rfl | h''
      · decide
      · exact isDigitC_not_ws (hPd c h'')
  have hcore_ne : groupDigits A ++ ',' :: P ≠ [] := by
    simp
  have hval : parseUnsignedFloat (A ++ '.' :: P) =
      some ((digitsToNat A : ℚ) + (digitsToNat P : ℚ) / (10 : ℚ) ^ P.length) := by
    obtain ⟨htw, hdw⟩ := takeWhile_append_stop A '.' P hA (by decide)
    rw [parseUnsignedFloat]
    simp only [htw, hdw]
    rw [if_pos]
    refine ⟨trivial, ?_, ?_⟩
    · exact List.all_eq_true.mpr hPd
    · left
      simpa using hAne
  have hAP_val : (digitsToNat A : ℚ) + (digitsToNat P : ℚ) / (10 : ℚ) ^ P.length =
      ((n.natAbs : ℚ)) / 100 := by
    rw [hPlen, hAdef, hPdef, digitsToNat_natDigitsStr, digitsToNat_padZeros,
      digitsToNat_natDigitsStr]
    have hsplit : (n.natAbs : ℚ) =
        ((n.natAbs / 100 : ℕ) : ℚ) * 100 + ((n.natAbs % 100 : ℕ) : ℚ) := by
      exact_mod_cast (by omega : n.natAbs = n.natAbs / 100 * 100 + n.natAbs % 100)
    rw [hsplit]
    ring
  by_cases hneg : n < 0
  · rw [if_pos (by exact_mod_cast hneg)]
    rw [parse_german_number]
    have hnws' : ∀ c ∈ '-' :: (groupDigits A ++ ',' :: P), isWs c = false := by
      intro c hc
      rcases List.mem_cons.mp hc with rfl | h'
      · decide
      · exact hnws c h'
    rw [trim_eq_of_no_ws hnws']
    rw [if_neg (by simp [List.isEmpty_iff])]
    have hcleanm : cleanNum ('-' :: (groupDigits A ++ ',' :: P)) =
        '-' :: (A ++ '.' :: P) := by
      rw [cleanNum, List.filter_cons]
      have : (('-' : Char) != '.') = true := by decide
      rw [if_pos this]
      simp only [List.map_cons]
      rw [if_neg (by decide)]
      have := hclean
      rw [cleanNum] at this
      rw [this]
    rw [hcleanm, parseFloatLit, hval]
    simp only [Option.map_some']
    rw [hAP_val]
    have : (n.natAbs : ℚ) = -(n : ℚ) := by
      rw [Int.cast_natAbs]
      exact_mod_cast abs_of_neg hneg
    rw [this]
    ring
  · rw [if_neg (by exact_mod_cast hneg)]
    rw [parse_german_number]
    rw [trim_eq_of_no_ws hnws]
    rw [if_neg (by simp [List.isEmpty_iff])]
    rw [hclean]
    have hfl : parseFloatLit (A ++ '.' :: P) = parseUnsignedFloat (A ++ '.' :: P) := by
      cases hA' : A with
      | nil => exact absurd hA' hAne
      | cons a t =>
        have had : isDigitC a = true := by
          rw [hA'] at hA
          exact hA a (List.mem_cons_self _ _)
        obtain ⟨-, -, h3, h4⟩ := isDigitC_ne_special had
        rw [parseFloatLit.eq_def]
        simp only [List.cons_append]
        split
        · rename_i heq
          rw [List.cons_eq_cons] at heq
          exact absurd heq.1 h3
        · rename_i heq
          rw [List.cons_eq_cons] at heq
          exact absurd heq.1 h4
        · rfl
    rw [hfl, hval, hAP_val]
    have : (n.natAbs : ℚ) = (n : ℚ) := by
      rw [Int.cast_natAbs]
      exact_mod_cast abs_of_nonneg (not_lt.mp hneg)
    rw [this]

/-- Parsing a string of shape `ipD ++ "." ++ fd` or `ipD` (all digits,
`ipD` nonempty) yields `ipD + fd/10^|fd|`. -/
theorem parseUnsignedFloat_shape (ipD fd : Str) (hipD : ∀ c ∈ ipD, isDigitC c = true)
    (hipne : ipD ≠ []) (hfd : ∀ c ∈ fd, isDigitC c = true) :
    parseUnsignedFloat (ipD ++ '.' :: fd) =
      some ((digitsToNat ipD : ℚ) + (digitsToNat fd : ℚ) / (10 : ℚ) ^ fd.length) ∧
    parseUnsignedFloat ipD = some ((digitsToNat ipD : ℚ)) := by
  constructor
  · obtain ⟨htw, hdw⟩ := takeWhile_append_stop ipD '.' fd hipD (by decide)
    rw [parseUnsignedFloat]
    simp only [htw, hdw]
    rw [if_pos]
    refine ⟨trivial, ?_, ?_⟩
    · exact List.all_eq_true.mpr hfd
    · left
      simpa using hipne
  · obtain ⟨htw, hdw⟩ := takeWhile_all ipD hipD
    rw [parseUnsignedFloat]
    simp only [htw, hdw]
    rw [if_neg (by simpa using hipne)]


theorem dropWhile_head_false {p : Char → Bool} :
    ∀ (l : Str) (x : Char) (xs : Str), l.dropWhile p = x :: xs → p x = false := by
  intro l
  induction l with
  | nil => intro x xs h; simp at h
  | cons c t ih =>
    intro x xs h
    rw [List.dropWhile_cons] at h
    by_cases hc : p c = true
    · rw [if_pos hc] at h
      exact ih x xs h
    · rw [if_neg hc] at h
      rw [List.cons_eq_cons] at h
      rw [← h.1]
      cases hb : p c
      · rfl
      · exact absurd hb hc

theorem cents_arith (a bq L : ℕ) (hL : L ≤ 2) :
    (a : ℚ) + (bq : ℚ) / (10 : ℚ) ^ L =
      (((a * 100 + bq * 10 ^ (2 - L) : ℕ) : ℚ)) / 100 := by
  have h100 : (100 : ℚ) = (10 : ℚ) ^ L * (10 : ℚ) ^ (2 - L) := by
    rw [← pow_add]
    have : L + (2 - L) = 2 := by omega
    rw [this]
    norm_num
  have hpow : ((10 : ℚ) ^ L) ≠ 0 := pow_ne_zero _ (by norm_num)
  rw [eq_div_iff (by norm_num : (100 : ℚ) ≠ 0)]
  push_cast
  rw [h100]
  field_simp
  ring

/-- Characterization of valid locale-formatted decimal strings: an optional
sign, a dot-grouped all-digit integer part starting with a digit, and an
optional comma-led all-digit fraction whose length is `fracDigitsOf`. -/
theorem valid_shape {s : Str} (hv : validGermanDecimal s = true) :
    ∃ (sgn : Bool) (ip fd : Str),
      s = (if sgn then ['-'] else []) ++ ip ++ (if fd.isEmpty then [] else ',' :: fd) ∧
      ip ≠ [] ∧ (∀ c ∈ ip, isDigitC c = true ∨ c = '.') ∧ headIsDigit ip = true ∧
      (∀ c ∈ fd, isDigitC c = true) ∧ fd.length = fracDigitsOf s := by
  simp only [validGermanDecimal, Bool.and_eq_true, Bool.or_eq_true,
    Bool.not_eq_true', List.isEmpty_iff, List.isEmpty_eq_false,
    List.all_eq_true] at hv
  obtain ⟨hip, hfr⟩ := hv
  rw [intPartOk] at hip
  simp only [Bool.and_eq_true, Bool.not_eq_true', List.isEmpty_eq_false,
    List.all_eq_true, Bool.or_eq_true] at hip
  obtain ⟨⟨⟨hipne, hipcls⟩, hiphead⟩, -⟩ := hip
  have hbsplit :
      (stripMinus s).takeWhile (fun c => c != ',') ++
        (stripMinus s).dropWhile (fun c => c != ',') = stripMinus s :=
    List.takeWhile_append_dropWhile _ _
  have hsplitS : s = (if s.headD ' ' = '-' then ['-'] else []) ++ stripMinus s := by
    cases hs : s with
    | nil => simp [stripMinus]
    | cons a r =>
      rw [stripMinus]
      by_cases ha : a = '-'
      · subst ha
        simp
      · rw [if_neg ha]
        simp [ha]
  have hdropS : s.dropWhile (fun c => c != ',') =
      (stripMinus s).dropWhile (fun c => c != ',') := by
    cases hs : s with
    | nil => rfl
    | cons a r =>
      rw [stripMinus]
      by_cases ha : a = '-'
      · rw [if_pos ha, List.dropWhile_cons_of_pos (by simp [ha])]
      · rw [if_neg ha]
  refine ⟨decide (s.headD ' ' = '-'), (stripMinus s).takeWhile (fun c => c != ','),
    ((stripMinus s).dropWhile (fun c => c != ',')).drop 1, ?_, hipne, ?_, hiphead, ?_, ?_⟩
  · -- reassembly
    have hifs : (if decide (s.headD ' ' = '-') = true then ['-'] else ([] : Str)) =
        (if s.headD ' ' = '-' then ['-'] else []) := by
      by_cases hh : s.headD ' ' = '-' <;> simp [hh]
    cases hf : (stripMinus s).dropWhile (fun c => c != ',') with
    | nil =>
      rw [hf, List.append_nil] at hbsplit
      simp only [hf, List.drop_nil, List.isEmpty_nil, if_true, List.append_nil, hifs]
      rw [hbsplit]
      exact hsplitS
    | cons f fd =>
      have hcomma : (f != ',') = false := dropWhile_head_false (stripMinus s) f fd hf
      have hf' : f = ',' := by simpa using hcomma
      subst hf'
      have hfdne : fd ≠ [] := by
        rcases hfr with h' | h'
        · rw [hf] at h'
          simp at h'
        · rw [hf] at h'
          simpa using h'.1
      have hempty : fd.isEmpty = false := by
        cases hfd0 : fd with
        | nil => exact absurd hfd0 hfdne
        | cons x y => rfl
      simp only [hf, List.drop_succ_cons, List.drop_zero, hempty, if_false, hifs]
      conv_lhs => rw [hsplitS, ← hbsplit, hf]
      rw [List.append_assoc]
      simp
  · intro c hc
    rcases hipcls c hc with h' | h'
    · exact Or.inl h'
    · exact Or.inr (by simpa using h')
  · intro c hc
    rcases hfr with h' | h'
    · rw [h'] at hc
      simp at hc
    · exact h'.2 c hc
  · rw [fracDigitsOf, hdropS]

theorem parseFloatLit_minus (r : Str) :
    parseFloatLit ('-' :: r) = (parseUnsignedFloat r).map (fun q => -q) := rfl

theorem parseFloatLit_digit_head {a : Char} (r : Str) (ha : isDigitC a = true) :
    parseFloatLit (a :: r) = parseUnsignedFloat (a :: r) := by
  obtain ⟨-, -, h3, h4⟩ := isDigitC_ne_special ha
  rw [parseFloatLit.eq_def]
  split
  · rename_i heq
    rw [List.cons_eq_cons] at heq
    exact absurd heq.1 h3
  · rename_i heq
    rw [List.cons_eq_cons] at heq
    exact absurd heq.1 h4
  · rfl

/-- Parsing a decomposed valid decimal (optional sign, grouped integer part,
optional comma fraction) yields the signed exact value. -/
theorem parse_components (sgn : Bool) (ip fd : Str)
    (hipne : ip ≠ []) (hipcls : ∀ c ∈ ip, isDigitC c = true ∨ c = '.')
    (hiphead : headIsDigit ip = true) (hfdd : ∀ c ∈ fd, isDigitC c = true) :
    parse_german_number ((if sgn then ['-'] else []) ++ ip ++
        (if fd.isEmpty then [] else ',' :: fd)) =
      (if sgn then (-1 : ℚ) else 1) *
        ((digitsToNat (ip.filter (fun c => c != '.')) : ℚ) +
          (digitsToNat fd : ℚ) / (10 : ℚ) ^ fd.length) := by
  have hipDd : ∀ c ∈ ip.filter (fun c => c != '.'), isDigitC c = true := by
    intro c hc
    obtain ⟨hmem, hpr⟩ := List.mem_filter.mp hc
    rcases hipcls c hmem with h' | h'
    · exact h'
    · exfalso
      rw [h'] at hpr
      simp at hpr
  obtain ⟨c0, ip', hip0⟩ : ∃ c0 ip', ip = c0 :: ip' := by
    cases hi : ip with
    | nil => exact absurd hi hipne
    | cons a t => exact ⟨a, t, rfl⟩
  have hc0d : isDigitC c0 = true := by
    rw [hip0] at hiphead
    simpa [headIsDigit] using hiphead
  have hipD0 : ip.filter (fun c => c != '.') = c0 :: ip'.filter (fun c => c != '.') := by
    rw [hip0, List.filter_cons, if_pos (by simpa using (isDigitC_ne_special hc0d).1)]
  have hipDne : ip.filter (fun c => c != '.') ≠ [] := by
    rw [hipD0]
    exact List.cons_ne_nil _ _
  -- whitespace freedom
  have hnws : ∀ c ∈ (if sgn then ['-'] else []) ++ ip ++
      (if fd.isEmpty then [] else ',' :: fd), isWs c = false := by
    intro c hc
    rcases List.mem_append.mp hc with h' | h'
    · rcases List.mem_append.mp h' with h'' | h''
      · cases sgn
        · simp at h''
        · rw [show c = '-' by simpa using h'']
          decide
      · rcases hipcls c h'' with h3 | h3
        · exact isDigitC_not_ws h3
        · rw [h3]; decide
    · by_cases hfe : fd.isEmpty
      · rw [if_pos hfe] at h'
        simp at h'
      · rw [if_neg hfe] at h'
        rcases List.mem_cons.mp h' with rfl | h''
        · decide
        · exact isDigitC_not_ws (hfdd c h'')
  rw [parse_german_number, trim_eq_of_no_ws hnws]
  rw [if_neg (by
    simp only [List.isEmpty_iff, List.append_eq_nil]
    rintro ⟨⟨-, h2⟩, -⟩
    exact hipne h2)]
  have hcleanip : cleanNum ip = ip.filter (fun c => c != '.') := by
    rw [cleanNum]
    have : (ip.filter (fun c => c != '.')).map (fun c => if c = ',' then '.' else c) =
        (ip.filter (fun c => c != '.')).map id := by
      refine List.map_congr_left (fun c hc => ?_)
      rw [if_neg (isDigitC_ne_special (hipDd c hc)).2.1]
      rfl
    rw [this, List.map_id]
  have hcleanfd : cleanNum (if fd.isEmpty then [] else ',' :: fd) =
      (if fd.isEmpty then [] else '.' :: fd) := by
    by_cases hfe : fd.isEmpty
    · rw [if_pos hfe, if_pos hfe]
      rfl
    · rw [if_neg hfe, if_neg hfe]
      rw [cleanNum, List.filter_cons, if_pos (by decide)]
      simp only [List.map_cons, if_pos rfl]
      congr 1
      rw [List.filter_eq_self.mpr (fun c hc => by
        simpa using (isDigitC_ne_special (hfdd c hc)).1)]
      have : fd.map (fun c => if c = ',' then '.' else c) = fd.map id := by
        refine List.map_congr_left (fun c hc => ?_)
        rw [if_neg (isDigitC_ne_special (hfdd c hc)).2.1]
        rfl
      rw [this, List.map_id]
  have hval : parseUnsignedFloat (ip.filter (fun c => c != '.') ++
      (if fd.isEmpty then [] else '.' :: fd)) =
      some ((digitsToNat (ip.filter (fun c => c != '.')) : ℚ) +
        (digitsToNat fd : ℚ) / (10 : ℚ) ^ fd.length) := by
    by_cases hfe : fd.isEmpty
    · rw [if_pos hfe]
      have hfd0 : fd = [] := by
        cases hf : fd with
        | nil => rfl
        | cons x y => rw [hf] at hfe; simp at hfe
      rw [List.append_nil, (parseUnsignedFloat_shape _ [] hipDd hipDne (by simp)).2,
        hfd0]
      simp [digitsToNat]
    · rw [if_neg hfe]
      exact (parseUnsignedFloat_shape _ fd hipDd hipDne hfdd).1
  cases sgn
  · rw [show ((if (false = true) then (['-'] : Str) else []) = []) from rfl,
      show ((if (false = true) then (-1 : ℚ) else 1) = 1) from rfl,
      List.nil_append]
    rw [cleanNum_append, hcleanip, hcleanfd]
    rw [hipD0]
    rw [List.cons_append, parseFloatLit_digit_head _ hc0d, ← List.cons_append, ← hipD0,
      hval]
    ring
  · rw [show ((if (true = true) then (['-'] : Str) else []) = ['-']) from rfl,
      show ((if (true = true) then (-1 : ℚ) else 1) = -1) from rfl,
      List.append_assoc, List.singleton_append]
    rw [cleanNum]
    rw [List.filter_cons, if_pos (by decide)]
    simp only [List.map_cons, if_neg (by decide : ¬('-' : Char) = ',')]
    have hrest : (List.filter (fun c => c != '.') (ip ++ (if fd.isEmpty then [] else ',' :: fd))).map
        (fun c => if c = ',' then '.' else c) =
        ip.filter (fun c => c != '.') ++ (if fd.isEmpty then [] else '.' :: fd) := by
      have := cleanNum_append ip (if fd.isEmpty then [] else ',' :: fd)
      rw [cleanNum] at this
      rw [this, hcleanip, hcleanfd]
    rw [hrest, parseFloatLit_minus, hval]
    simp only [Option.map_some']
    ring

/-- A valid locale-formatted decimal string with at most two fraction digits
parses to a whole number of hundredths. -/
theorem valid_parses_to_cents {s : Str} (hv : validGermanDecimal s = true)
    (hfd : fracDigitsOf s ≤ 2) :
    ∃ n : ℤ, parse_german_number s = (n : ℚ) / 100 := by
  obtain ⟨sgn, ip, fd, hshape, hipne, hipcls, hiphead, hfdd, hlen⟩ := valid_shape hv
  refine ⟨(if sgn then -1 else 1) *
    ((digitsToNat (ip.filter (fun c => c != '.')) * 100 +
      digitsToNat fd * 10 ^ (2 - fd.length) : ℕ) : ℤ), ?_⟩
  rw [hshape, parse_components sgn ip fd hipne hipcls hiphead hfdd,
    cents_arith _ _ fd.length (by rw [hlen]; exact hfd)]
  cases sgn
  · push_cast
    ring
  · push_cast
    ring

/-- Evaluation helper: parsing a concrete string whose cleaned form is
`ipD ++ "." ++ fd` with a leading digit. -/
theorem parse_german_number_concrete (s ipD fd : Str) (c0 : Char) (r : Str)
    (htr : trimChars s = s) (hne : s.isEmpty = false)
    (hcln : cleanNum s = ipD ++ '.' :: fd)
    (heq : ipD ++ '.' :: fd = c0 :: r) (hc0 : isDigitC c0 = true)
    (hipDd : ∀ c ∈ ipD, isDigitC c = true) (hipne : ipD ≠ [])
    (hfdd : ∀ c ∈ fd, isDigitC c = true) :
    parse_german_number s =
      (digitsToNat ipD : ℚ) + (digitsToNat fd : ℚ) / (10 : ℚ) ^ fd.length := by
  rw [parse_german_number, htr, if_neg (by rw [hne]; exact Bool.false_ne_true), hcln,
    heq, parseFloatLit_digit_head _ hc0, ← heq,
    (parseUnsignedFloat_shape ipD fd hipDd hipne hfdd).1]

/-- **C6 (counterexample).** The string `"0,125"` is a valid locale-formatted
decimal, but `parse(format(parse s))` yields `0.12` (the formatter always
rounds to two decimals), not `0.125`: the round trip fails. -/
theorem parse_format_roundtrip_cex :
    validGermanDecimal (str "0,125") = true ∧
    parse_german_number (str "0,125") = 1 / 8 ∧
    parse_german_number (format_german_number (parse_german_number (str "0,125")) 2) =
      3 / 25 ∧
    ¬ (parse_german_number (format_german_number (parse_german_number (str "0,125")) 2) =
        parse_german_number (str "0,125")) := by
  have h2 : parse_german_number (str "0,125") = 1 / 8 := by
    rw [parse_german_number_concrete (str "0,125") ['0'] (str "125") '0' (str ".125")
      (by decide) (by decide) (by decide) (by decide) (by decide) (by decide)
      (by decide) (by decide)]
    rw [show digitsToNat ['0'] = 0 from by decide,
      show digitsToNat (str "125") = 125 from by decide,
      show (str "125").length = 3 from by decide]
    norm_num
  have h3 : parse_german_number
      (format_german_number (parse_german_number (str "0,125")) 2) = 3 / 25 := by
    rw [h2]
    have hfmt : format_german_number (1 / 8 : ℚ) 2 = str "0,12" := by
      have hrhe : rhe ((1 / 8 : ℚ) * (10 : ℚ) ^ 2) = 12 := by
        rw [rhe]
        have hfl : ⌊(1 / 8 : ℚ) * (10 : ℚ) ^ 2⌋ = 12 := by norm_num
        simp only [hfl]
        rw [if_neg (by norm_num), if_neg (by norm_num), if_pos (by norm_num)]
      rw [format_german_number, hrhe, if_neg (by norm_num), if_neg (by norm_num)]
      rw [show (12 : ℤ).natAbs / 10 ^ 2 = 0 from by norm_num,
        show (12 : ℤ).natAbs % 10 ^ 2 = 12 from by norm_num,
        show natDigitsStr 0 = ['0'] from rfl,
        show natDigitsStr 12 = ['1', '2'] from by
          have h12 : natToRevDigits 12 = 2 :: natToRevDigits 1 := by
            rw [natToRevDigits]
            norm_num
          have hone : natToRevDigits 1 = 1 :: natToRevDigits 0 := by
            rw [natToRevDigits]
            norm_num
          have h0 : natToRevDigits 0 = [] := by
            rw [natToRevDigits]
            simp
          rw [natDigitsStr, if_neg (by norm_num), h12, hone, h0]
          rfl,
        show groupDigits ['0'] = ['0'] from by simp [groupDigits, group3Rev],
        show padZeros 2 ['1', '2'] = ['1', '2'] from by simp [padZeros]]
      decide
    rw [hfmt]
    rw [parse_german_number_concrete (str "0,12") ['0'] (str "12") '0' (str ".12")
      (by decide) (by decide) (by decide) (by decide) (by decide) (by decide)
      (by decide) (by decide)]
    rw [show digitsToNat ['0'] = 0 from by decide,
      show digitsToNat (str "12") = 12 from by decide,
      show (str "12").length = 2 from by decide]
    norm_num
  refine ⟨by decide, h2, h3, ?_⟩
  rw [h3, h2]
  norm_num

/-- **C6 (amended).** `parse_decimal("") = 0`, and for every valid
locale-formatted decimal string with at most two fraction digits — the
precision the 2-decimal formatter can represent —
`parse_decimal(format_decimal(parse_decimal(s)))` equals `parse_decimal(s)`
exactly. -/
theorem parse_format_roundtrip :
    parse_german_number [] = 0 ∧
    ∀ s : Str, validGermanDecimal s = true → fracDigitsOf s ≤ 2 →
      parse_german_number (format_german_number (parse_german_number s) 2) =
        parse_german_number s := by
  refine ⟨rfl, fun s hv hfd => ?_⟩
  obtain ⟨n, hn⟩ := valid_parses_to_cents hv hfd
  rw [hn]
  exact parse_format_of_cents _ n rfl

theorem parse_format_roundtrip_witness :
    validGermanDecimal (str "1.234,56") = true ∧ fracDigitsOf (str "1.234,56") ≤ 2 ∧
    parse_german_number (format_german_number (parse_german_number (str "1.234,56")) 2) =
      parse_german_number (str "1.234,56") :=
  ⟨by decide, by decide,
   parse_format_roundtrip.2 (str "1.234,56") (by decide) (by decide)⟩

/-! ## Regex building blocks for the narrative classifiers

The patterns of `parse_verwendungszweck` and
`parse_trade_republic_beschreibung` are hand-compiled to deterministic
character-list matchers.  Every greedy piece (`\d+`, `[...]+`, `\s+`) is
followed in the patterns by a character outside its class, so maximal munch
is exact; the lazy pieces (`(.+?)`, `.*?`) are modelled shortest-first, as
the backtracking engine explores them; the two places where backtracking
does arise (whitespace adjacent to a class containing whitespace) are
modelled explicitly below. -/

/-- `[A-Z0-9]`, the ISIN character class. -/
def isAZ09 (c : Char) : Bool := ('A' ≤ c && c ≤ 'Z') || c.isDigit

/-- `[A-Z0-9]` under `re.IGNORECASE`. -/
def isAZ09CI (c : Char) : Bool := isAZ09 c || ('a' ≤ c && c ≤ 'z')

/-- `[\d,.\s]`, the quantity class of the Verwendungszweck order patterns. -/
def isStkChar (c : Char) : Bool := c.isDigit || c = ',' || c = '.' || isWs c

/-- `[\d.,]`, the quantity class of the Beschreibung trade pattern. -/
def isQtyChar (c : Char) : Bool := c.isDigit || c = '.' || c = ','

/-- `[\d.]`, the quantity class of the PDF year/quantity patterns. -/
def isDigitDot (c : Char) : Bool := c.isDigit || c = '.'

/-- `\s+` (greedy; every use site is followed by a non-whitespace pattern
piece, so no backtracking arises). -/
def wsPlus (s : Str) : Option Str :=
  if (s.takeWhile isWs).isEmpty then none else some (s.dropWhile isWs)

/-- Greedy `([...]+)` with capture; every use site is followed by a pattern
piece that cannot start inside the class, so maximal munch is exact. -/
def takeClass (p : Char → Bool) (s : Str) : Option (Str × Str) :=
  if (s.takeWhile p).isEmpty then none else some (s.takeWhile p, s.dropWhile p)

/-- `([...]{n})` with capture. -/
def exactClass (p : Char → Bool) (n : ℕ) (s : Str) : Option (Str × Str) :=
  if (s.take n).length = n ∧ (s.take n).all p then some (s.take n, s.drop n)
  else none

/-- A lazy group `(.+?)` followed by the continuation pattern `cont`: try the
shortest nonempty prefix first, exactly as the backtracking engine does, and
return the captured prefix with the continuation's result.  `.` does not
match a newline. -/
def lazySplit {β : Type} (cont : Str → Option β) : Str → Option (Str × β)
  | [] => none
  | c :: t =>
    if c = '\n' then none
    else
      match cont t with
      | some b => some ([c], b)
      | none =>
        match lazySplit cont t with
        | some (p, b) => some (c :: p, b)
        | none => none

/-- `re.search`: try an anchored matcher at every start position, leftmost
first. -/
def reSearch {β : Type} (m : Str → Option β) : Str → Option β
  | [] => m []
  | c :: t =>
    match m (c :: t) with
    | some b => some b
    | none => reSearch m t

/-- A lazy `.*?` followed by the continuation pattern: leftmost continuation
match, except that the gap may not cross a newline (`.` does not match one). -/
def lazyDotStar {β : Type} (cont : Str → Option β) : Str → Option β
  | [] => cont []
  | c :: t =>
    match cont (c :: t) with
    | some b => some b
    | none => if c = '\n' then none else lazyDotStar cont t

/-- `\s+([\d,.\s]+)`, the quantity tail of the STK patterns.  Whitespace is
inside the captured class, so when nothing of the class follows the
whitespace run the engine gives the run's final character back to the group
(possible only when the run has length ≥ 2); the capture is then that single
whitespace character. -/
def wsThenStk (s : Str) : Option Str :=
  let w := s.takeWhile isWs
  let rest := s.dropWhile isWs
  if w.isEmpty then none
  else if ¬(rest.takeWhile isStkChar).isEmpty then some (rest.takeWhile isStkChar)
  else if 2 ≤ w.length then some [w.getLastD ' ']
  else none

/-- `\s+` directly before a lazy `(.+?)` group whose continuation begins with
a non-whitespace literal: after every split inside the post-whitespace text
fails, the engine shortens the `\s+` run (possible only when it has length
≥ 2) and lets the group be its final whitespace character, with the
continuation starting right after the run. -/
def wsLazyName {β : Type} (cont : Str → Option β) (s : Str) : Option (Str × β) :=
  let w := s.takeWhile isWs
  let rest := s.dropWhile isWs
  if w.isEmpty then none
  else
    match lazySplit cont rest with
    | some (nm, b) => some (nm, b)
    | none =>
      if 2 ≤ w.length ∧ w.getLastD ' ' ≠ '\n' then
        match cont rest with
        | some b => some ([w.getLastD ' '], b)
        | none => none
      else none

/-- `(Kauf|Verkauf)`: leftmost alternative; the two literals can never match
at the same position. -/
def altKV (s : Str) : Option (Str × Str) :=
  match lit (str "Kauf") s with
  | some r => some (str "Kauf", r)
  | none =>
    match lit (str "Verkauf") s with
    | some r => some (str "Verkauf", r)
    | none => none

/-! ## `parse_verwendungszweck` (lines 510–603) -/

/-- `\s+ISIN [A-Z0-9]{12}\s+STK` plus the quantity tail — the continuation
after the lazy name group shared by the three order patterns. -/
def nameCont (s : Str) : Option Str :=
  match wsPlus s with
  | none => none
  | some s1 =>
    match lit (str "ISIN ") s1 with
    | none => none
    | some s2 =>
      match exactClass isAZ09 12 s2 with
      | none => none
      | some (_, s3) =>
        match wsPlus s3 with
        | none => none
        | some s4 =>
          match lit (str "STK") s4 with
          | none => none
          | some s5 => wsThenStk s5

/-- ` - (Kauf|Verkauf)\s+\((.+?)\s+ISIN [A-Z0-9]{12}\s+STK\s+([\d,.\s]+)`,
the shared tail of the Order/Sparplan/Bruchstücke patterns; returns
(direction, raw name, raw quantity). -/
def tailKV (s : Str) : Option (Str × Str × Str) :=
  match lit (str " - ") s with
  | none => none
  | some s1 =>
    match altKV s1 with
    | none => none
    | some (dir, s2) =>
      match wsPlus s2 with
      | none => none
      | some s3 =>
        match lit (str "(") s3 with
        | none => none
        | some s4 =>
          match lazySplit nameCont s4 with
          | none => none
          | some (nm, stk) => some (dir, nm, stk)

/-- `Order Nr (\d+) ISIN ([A-Z0-9]{12})` followed by the shared tail;
returns (order number, isin, direction, raw name, raw quantity). -/
def orderAt (s : Str) : Option (Str × Str × Str × Str × Str) :=
  match lit (str "Order Nr ") s with
  | none => none
  | some s1 =>
    match takeClass isDigitC s1 with
    | none => none
    | some (nr, s2) =>
      match lit (str " ISIN ") s2 with
      | none => none
      | some s3 =>
        match exactClass isAZ09 12 s3 with
        | none => none
        | some (isin, s4) =>
          match tailKV s4 with
          | none => none
          | some (dir, nm, stk) => some (nr, isin, dir, nm, stk)

/-- A keyword literal, then `([A-Z0-9]{12})`, then the shared tail — the
Sparplan-Order and Bruchstücke-Order patterns. -/
def zuIsinAt (kw : Str) (s : Str) : Option (Str × Str × Str × Str) :=
  match lit kw s with
  | none => none
  | some s1 =>
    match exactClass isAZ09 12 s1 with
    | none => none
    | some (isin, s2) =>
      match tailKV s2 with
      | none => none
      | some (dir, nm, stk) => some (isin, dir, nm, stk)

/-- `ISIN ([A-Z0-9]{12})`, the Dividende/Vorabpauschale isin pattern. -/
def isinAt (s : Str) : Option Str :=
  match lit (str "ISIN ") s with
  | none => none
  | some s1 =>
    match exactClass isAZ09 12 s1 with
    | none => none
    | some (isin, _) => some isin

/-- `WP-Abrechnung Verkauf:.*?ISIN ([A-Z0-9]{12})\s+STK\s+([\d,.\s]+)`. -/
def wpAt (s : Str) : Option (Str × Str) :=
  match lit (str "WP-Abrechnung Verkauf:") s with
  | none => none
  | some s1 =>
    lazyDotStar (fun r =>
      match lit (str "ISIN ") r with
      | none => none
      | some r1 =>
        match exactClass isAZ09 12 r1 with
        | none => none
        | some (isin, r2) =>
          match wsPlus r2 with
          | none => none
          | some r3 =>
            match lit (str "STK") r3 with
            | none => none
            | some r4 =>
              match wsThenStk r4 with
              | none => none
              | some stk => some (isin, stk)) s1

/-- The encoding-damaged `"BruchstÃ¼cke"` type literal. -/
def bruchTyp : Str := str "Bruchst" ++ umlUe ++ str "cke"

/-- `"BruchstÃ¼cke-Order zu ISIN "`. -/
def bruchKw : Str := bruchTyp ++ str "-Order zu ISIN "

/-- `"Sparplan-Order zu ISIN "`. -/
def sparKw : Str := str "Sparplan-Order zu ISIN "

/-- `group.strip().replace(" ", "").replace("-", "")`, the quantity-string
cleanup of the order branches. -/
def stkClean (stk : Str) : Str :=
  ((trimChars stk).filter (fun c => c != ' ')).filter (fun c => c != '-')

/-- `parse_verwendungszweck(zweck, transaction)` (lines 510–603): classify a
bank-statement narrative and fill the trade fields of the transaction. -/
def parse_verwendungszweck (zweck : Str) (t : Transaction) : Transaction :=
  match reSearch orderAt zweck with
  | some (nr, isin, dir, nm, stk) =>
    { t with typ := str "Order", order_nr := nr, isin := isin,
             is_kauf := dir == str "Kauf", is_verkauf := dir == str "Verkauf",
             name := trimChars nm, stueck := parse_german_number (stkClean stk) }
  | none =>
  match reSearch (zuIsinAt sparKw) zweck with
  | some (isin, dir, nm, stk) =>
    { t with typ := str "Sparplan", isin := isin, is_kauf := dir == str "Kauf",
             is_verkauf := dir == str "Verkauf", name := trimChars nm,
             stueck := parse_german_number (stkClean stk) }
  | none =>
  match reSearch (zuIsinAt bruchKw) zweck with
  | some (isin, dir, nm, stk) =>
    { t with typ := bruchTyp, isin := isin, is_kauf := dir == str "Kauf",
             is_verkauf := dir == str "Verkauf", name := trimChars nm,
             stueck := parse_german_number (stkClean stk) }
  | none =>
  if containsSub (str "Gutschrift") zweck then { t with typ := str "Einzahlung" }
  else if containsSub (str "Auszahlung") zweck then { t with typ := str "Auszahlung" }
  else if containsSub (str "Lastschrift") zweck then { t with typ := str "Lastschrift" }
  else if containsSub (str "Coupons/Dividende") zweck then
    match reSearch isinAt zweck with
    | some isin => { t with typ := str "Dividende", isin := isin }
    | none => { t with typ := str "Dividende" }
  else if containsSub (str "Steuerausgleich") zweck then { t with typ := str "Steuerausgleich" }
  else if containsSub (str "Vorabpauschale") zweck then
    match reSearch isinAt zweck with
    | some isin => { t with typ := str "Vorabpauschale", isin := isin }
    | none => { t with typ := str "Vorabpauschale" }
  else if containsSub (str "WP-Abrechnung") zweck then
    match reSearch wpAt zweck with
    | some (isin, stk) =>
      { t with typ := str "WP-Abrechnung", isin := isin,
               stueck := parse_german_number (stkClean stk), is_verkauf := true }
    | none => { t with typ := str "WP-Abrechnung" }
  else if containsSub (str "KKT-Abschluss") zweck then { t with typ := str "KKT-Abschluss" }
  else { t with typ := str "Sonstig" }

/-! ## `parse_trade_republic_beschreibung` (lines 109–154) -/

/-- `(Buy|Sell)` (case-sensitive; the anchored trade pattern of the
Beschreibung parser). -/
def altBuySell (s : Str) : Option (Str × Str) :=
  match lit (str "Buy") s with
  | some r => some (str "Buy", r)
  | none =>
    match lit (str "Sell") s with
    | some r => some (str "Sell", r)
    | none => none

/-- `,\s*quantity:\s*([\d.,]+)`, the continuation after the lazy name group
of the Beschreibung trade pattern; returns the quantity capture. -/
def bsCont (s : Str) : Option Str :=
  match lit (str ",") s with
  | none => none
  | some s1 =>
    match lit (str "quantity:") (s1.dropWhile isWs) with
    | none => none
    | some s2 =>
      match takeClass isQtyChar (s2.dropWhile isWs) with
      | none => none
      | some (q, _) => some q

/-- `^(Buy|Sell)\s+trade\s+([A-Z0-9]{12})\s+(.+?),\s*quantity:\s*([\d.,]+)`
(`re.match`, anchored); returns (direction, isin, raw name, quantity). -/
def bsMatch (s : Str) : Option (Str × Str × Str × Str) :=
  match altBuySell s with
  | none => none
  | some (dir, s1) =>
    match wsPlus s1 with
    | none => none
    | some s2 =>
      match lit (str "trade") s2 with
      | none => none
      | some s3 =>
        match wsPlus s3 with
        | none => none
        | some s4 =>
          match exactClass isAZ09 12 s4 with
          | none => none
          | some (isin, s5) =>
            match wsLazyName bsCont s5 with
            | none => none
            | some (nm, q) => some (dir, isin, nm, q)

/-- `^Cash Dividend for ISIN\s+([A-Z0-9]{12})` (`re.match`, anchored). -/
def cdMatch (s : Str) : Option Str :=
  match lit (str "Cash Dividend for ISIN") s with
  | none => none
  | some s1 =>
    match wsPlus s1 with
    | none => none
    | some s2 =>
      match exactClass isAZ09 12 s2 with
      | none => none
      | some (isin, _) => some isin

/-- `parse_trade_republic_beschreibung(beschreibung, transaction)`
(lines 109–154): classify a Trade-Republic PDF description.  The quantity is
`float(group4.replace(",", ""))` with `0.0` on `ValueError`. -/
def parse_trade_republic_beschreibung (beschreibung : Str) (t : Transaction) : Transaction :=
  let b := trimChars beschreibung
  match bsMatch b with
  | some (dir, isin, nm, qty) =>
    { t with typ := str "Order", is_kauf := dir == str "Buy",
             is_verkauf := dir == str "Sell", isin := isin, name := trimChars nm,
             stueck := (parseFloatLit (qty.filter (fun c => c != ','))).getD 0 }
  | none =>
    if (str "Incoming transfer").isPrefixOf b then { t with typ := str "Einzahlung" }
    else if (str "Outgoing transfer").isPrefixOf b then { t with typ := str "Auszahlung" }
    else if containsSub (str "Tax Optimisation") b || containsSub (str "Tax optimisation") b then
      { t with typ := str "Steuerausgleich" }
    else
      match cdMatch b with
      | some isin => { t with typ := str "Dividende", isin := isin }
      | none => { t with typ := str "Sonstig" }

/-- One row of `read_csv` (lines 606–625): build the base transaction from
the CSV columns, then classify its narrative. -/
def read_csv_row (datumS valutaS betragS statusS zweckS ibanS : Str) : Transaction :=
  parse_verwendungszweck zweckS
    { datum := parse_german_date datumS, valuta := parse_german_date valutaS,
      betrag := parse_german_number betragS, status := statusS,
      verwendungszweck := zweckS, iban := ibanS }

/-! ## C8: the worked Order narrative -/

/-- `parse_german_number` on a plain digit string (no comma, no dot). -/
theorem parse_german_number_int (s ipD : Str) (c0 : Char) (r : Str)
    (htr : trimChars s = s) (hne : s.isEmpty = false)
    (hcln : cleanNum s = ipD) (heq : ipD = c0 :: r) (hc0 : isDigitC c0 = true)
    (hipDd : ∀ c ∈ ipD, isDigitC c = true) :
    parse_german_number s = (digitsToNat ipD : ℚ) := by
  rw [parse_german_number, htr, if_neg (by rw [hne]; exact Bool.false_ne_true), hcln, heq,
    parseFloatLit_digit_head r hc0, ← heq,
    (parseUnsignedFloat_shape ipD [] hipDd (by rw [heq]; exact List.cons_ne_nil _ _)
      (by simp)).2]

/-- The worked narrative of the spec. -/
def c8Narr : Str :=
  str "Order Nr 123456 ISIN DE000BASF111 - Kauf (BASF SE ISIN DE000BASF111 STK 10"

/-- A fresh transaction whose narrative is `c8Narr` (dates, amount and the
other CSV columns play no role in the classification). -/
def c8Base : Transaction :=
  { datum := dateMin, valuta := dateMin, betrag := 0, status := [],
    verwendungszweck := c8Narr, iban := [] }

/-- **C8.** Classifying the narrative `"Order Nr 123456 ISIN DE000BASF111 -
Kauf (BASF SE ISIN DE000BASF111 STK 10"` yields kind `Order`, order number
`"123456"`, instrument id `"DE000BASF111"`, instrument name `"BASF SE"`,
quantity `10`, `is_kauf = true` and `is_verkauf = false`. -/
theorem order_narrative_example :
    (parse_verwendungszweck c8Narr c8Base).typ = str "Order" ∧
    (parse_verwendungszweck c8Narr c8Base).order_nr = str "123456" ∧
    (parse_verwendungszweck c8Narr c8Base).isin = str "DE000BASF111" ∧
    (parse_verwendungszweck c8Narr c8Base).name = str "BASF SE" ∧
    (parse_verwendungszweck c8Narr c8Base).stueck = 10 ∧
    (parse_verwendungszweck c8Narr c8Base).is_kauf = true ∧
    (parse_verwendungszweck c8Narr c8Base).is_verkauf = false := by
  have hs : reSearch orderAt c8Narr =
      some (str "123456", str "DE000BASF111", str "Kauf", str "BASF SE", str "10") := by
    decide
  have hq : parse_german_number (stkClean (str "10")) = 10 := by
    rw [show stkClean (str "10") = str "10" from by decide]
    rw [parse_german_number_int (str "10") (str "10") '1' ['0'] (by decide) (by decide)
      (by decide) rfl (by decide) (by decide)]
    rw [show digitsToNat (str "10") = 10 from by decide]
    norm_num
  simp only [parse_verwendungszweck, hs, hq]
  refine ⟨?_, ?_, ?_, ?_, ?_, ?_, ?_⟩ <;> first | rfl | trivial

/-! ## `read_trade_republic_pdf` (lines 157–507)

The reader is modelled from the line list downward (`pdfplumber` page
extraction is I/O).  `lines = all_text.split("\n")`, so processed lines
contain no newline; the matchers nevertheless model `.` ≠ `'\n'` and the
`$`-before-final-newline rule exactly. -/

/-- `normalize_tr_text` (lines 81–91): the seven `str.replace` calls in
sequence.  No replacement output contains a later replacement key, so the
sequential replaces equal one simultaneous character expansion. -/
def replTR (c : Char) : Str :=
  if c = Char.ofNat 228 then umlAe
  else if c = Char.ofNat 246 then [chA, chOe]
  else if c = Char.ofNat 252 then umlUe
  else if c = Char.ofNat 196 then [chA, chAE]
  else if c = Char.ofNat 214 then [chA, chOE]
  else if c = Char.ofNat 220 then umlUE
  else if c = Char.ofNat 223 then [chA, chSz]
  else [c]

/-- `normalize_tr_text(text)`. -/
def normalize_tr_text (s : Str) : Str := (s.map replTR).flatten

/-- `"KONTOÃœBERSICHT"`. -/
def kontoUeb : Str := str "KONTO" ++ umlUE ++ str "BERSICHT"

/-- `"UMSATZÃœBERSICHT"`. -/
def umsatzUeb : Str := str "UMSATZ" ++ umlUE ++ str "BERSICHT"

/-- `"BARMITTELÃœBERSICHT"`. -/
def barmUeb : Str := str "BARMITTEL" ++ umlUE ++ str "BERSICHT"

/-- `"Bitte Ã¼berprÃ¼fe"`. -/
def bitteUeb : Str := str "Bitte " ++ umlUe ++ str "berpr" ++ umlUe ++ str "fe"

/-- The header/footer skip conditions (lines 186–210) on the stripped line. -/
def isSkipLine (line : Str) : Bool :=
  line.isEmpty || containsSub (str "TRADE REPUBLIC") line ||
  containsSub (str "DATUM TYP") line ||
  containsSub (str "Trade Republic Bank") line ||
  containsSub (str "www.traderepublic") line ||
  containsSub (str "Erstellt am") line || containsSub (str "Seite") line ||
  containsSub kontoUeb line || containsSub umsatzUeb line ||
  containsSub (str "PRODUKT") line || containsSub (str "Cashkonto") line ||
  containsSub barmUeb line || containsSub (str "TREUHANDKONTEN") line ||
  containsSub (str "GELDMARKTFONDS") line || containsSub (str "HINWEISE") line ||
  bitteUeb.isPrefixOf line || containsSub (str "Einwendungen") line

/-- Python `\w`, restricted to the characters reachable in this program's
inputs: ASCII alphanumerics, underscore, and the non-ASCII letters the
normalizer can produce (`Ã`, `ã`, `œ`, `Œ`, `Ÿ`) plus the numeric `¼`.
(Full-Unicode `\w` is immaterial to every claim; this fixes one predicate,
exact on ASCII and on every character the PDF pipeline emits.) -/
def isWordPy (c : Char) : Bool :=
  c.isAlphanum || c = '_' || c = chA || c = Char.ofNat 227 || c = chUE ||
    c = Char.ofNat 338 || c = chSz || c = chUe

/-- The month class `[\wÃ¤Ã¶Ã¼]`: `\w` plus the bytes `Ã`, `¤`, `¶`, `¼` of
the damaged umlaut literals (`¼` is already `\w`-numeric). -/
def isWordTR (c : Char) : Bool := isWordPy c || c = chAe || c = chOe

/-- `$` (no MULTILINE): end of string, or just before a final newline. -/
def dollarAt (s : Str) : Bool := s.isEmpty || s = ['\n']

/-- `(.+)` up to `$`: the whole remainder, or the remainder less a final
newline; `none` when empty or when an interior newline blocks `.`. -/
def dotPlusDollar (rest : Str) : Option Str :=
  if rest.all (fun c => c != '\n') then (if rest.isEmpty then none else some rest)
  else if rest.getLastD ' ' = '\n' ∧ rest.dropLast.all (fun c => c != '\n') ∧
      ¬rest.dropLast.isEmpty then some rest.dropLast
  else none

/-- `(.*)` up to `$` (as `dotPlusDollar`, but the capture may be empty). -/
def dotStarDollar (rest : Str) : Option Str :=
  if rest.all (fun c => c != '\n') then some rest
  else if rest.getLastD ' ' = '\n' ∧ rest.dropLast.all (fun c => c != '\n') then
    some rest.dropLast
  else none

/-- `\s+(.+)$`: when nothing matchable by `.` follows the whitespace run,
the engine shortens the run (needs length ≥ 2) and the group is its final
character. -/
def wsDotPlus (s : Str) : Option Str :=
  let w := s.takeWhile isWs
  let rest := s.dropWhile isWs
  if w.isEmpty then none
  else
    match dotPlusDollar rest with
    | some g => some g
    | none =>
      if 2 ≤ w.length ∧ w.getLastD ' ' ≠ '\n' ∧ dollarAt rest then
        some [w.getLastD ' ']
      else none

/-- `\s*(.+)$` (as `wsDotPlus`, but the run may also shrink to nothing, so a
run of length 1 can feed the group). -/
def wsStarDotPlus (s : Str) : Option Str :=
  let w := s.takeWhile isWs
  let rest := s.dropWhile isWs
  match dotPlusDollar rest with
  | some g => some g
  | none =>
    if ¬w.isEmpty ∧ w.getLastD ' ' ≠ '\n' ∧ dollarAt rest then
      some [w.getLastD ' ']
    else none

/-- `^(\d{1,2})`: one or two digits; a third digit kills the match (the
following pattern piece is never a digit). -/
def dayDigits (s : Str) : Option (Str × Str) :=
  let d := s.takeWhile isDigitC
  if d.isEmpty ∨ 2 < d.length then none else some (d, s.dropWhile isDigitC)

/-- `^(\d{1,2})\s+([\wÃ¤Ã¶Ã¼]+\.?)$` (format 1, on the unnormalized line):
returns (day, month). -/
def fmt1Match (s : Str) : Option (Str × Str) :=
  match dayDigits s with
  | none => none
  | some (d, s1) =>
    match wsPlus s1 with
    | none => none
    | some s2 =>
      let w := s2.takeWhile isWordTR
      let r := s2.dropWhile isWordTR
      if w.isEmpty then none
      else if r.headD ' ' = '.' then
        (if dollarAt (r.drop 1) then some (d, w ++ ['.']) else none)
      else if dollarAt r then some (d, w) else none

/-- `([\wÃ¤Ã¶Ã¼]+\.?)\s+`: month capture inside formats 2 and 3. -/
def monthThenWs (s : Str) : Option (Str × Str) :=
  let w := s.takeWhile isWordTR
  let r := s.dropWhile isWordTR
  if w.isEmpty then none
  else if r.headD ' ' = '.' then
    match wsPlus (r.drop 1) with
    | some r2 => some (w ++ ['.'], r2)
    | none => none
  else
    match wsPlus r with
    | some r2 => some (w, r2)
    | none => none

/-- `(Buy|Sell)` under IGNORECASE, capturing the original text. -/
def altBuySellCI (s : Str) : Option (Str × Str) :=
  match litCI (str "Buy") s with
  | some r => some (s.take 3, r)
  | none =>
    match litCI (str "Sell") s with
    | some r => some (s.take 4, r)
    | none => none

/-- `,\s*quantity:\s*$`, the continuation after the lazy name of format 2. -/
def fmt2Cont (s : Str) : Option Unit :=
  match lit (str ",") s with
  | none => none
  | some s1 =>
    match litCI (str "quantity:") (s1.dropWhile isWs) with
    | none => none
    | some s2 => if (s2.dropWhile isWs).isEmpty then some () else none

/-- Format 2 (line 217, IGNORECASE, on the normalized line):
`^(\d{1,2})\s+([\wÃ¤Ã¶Ã¼]+\.?)\s+(Buy|Sell)\s+trade\s+([A-Z0-9]{12})\s+(.+?),\s*quantity:\s*$`;
returns (day, month, direction as written, isin, raw name). -/
def fmt2Match (s : Str) : Option (Str × Str × Str × Str × Str) :=
  match dayDigits s with
  | none => none
  | some (d, s1) =>
    match wsPlus s1 with
    | none => none
    | some s2 =>
      match monthThenWs s2 with
      | none => none
      | some (mon, s3) =>
        match altBuySellCI s3 with
        | none => none
        | some (dir, s4) =>
          match wsPlus s4 with
          | none => none
          | some s5 =>
            match litCI (str "trade") s5 with
            | none => none
            | some s6 =>
              match wsPlus s6 with
              | none => none
              | some s7 =>
                match exactClass isAZ09CI 12 s7 with
                | none => none
                | some (isin, s8) =>
                  match wsLazyName fmt2Cont s8 with
                  | none => none
                  | some (nm, _) => some (d, mon, dir, isin, nm)

/-- Format 3 (line 224, IGNORECASE, on the normalized line):
`^(\d{1,2})\s+([\wÃ¤Ã¶Ã¼]+\.?)\s+(Buy|Sell)\s+trade\s+([A-Z0-9]{12})\s+(.+)$`;
returns (day, month, direction as written, isin, raw first name part). -/
def fmt3Match (s : Str) : Option (Str × Str × Str × Str × Str) :=
  match dayDigits s with
  | none => none
  | some (d, s1) =>
    match wsPlus s1 with
    | none => none
    | some s2 =>
      match monthThenWs s2 with
      | none => none
      | some (mon, s3) =>
        match altBuySellCI s3 with
        | none => none
        | some (dir, s4) =>
          match wsPlus s4 with
          | none => none
          | some s5 =>
            match litCI (str "trade") s5 with
            | none => none
            | some s6 =>
              match wsPlus s6 with
              | none => none
              | some s7 =>
                match exactClass isAZ09CI 12 s7 with
                | none => none
                | some (isin, s8) =>
                  match wsDotPlus s8 with
                  | none => none
                  | some nm => some (d, mon, dir, isin, nm)

/-- `^(\d{4})\s+([\d.]+)$` (the format-2 year/quantity line); returns
(year, quantity capture). -/
def yearQtyMatch (s : Str) : Option (ℕ × Str) :=
  if (s.take 4).length = 4 ∧ (s.take 4).all isDigitC then
    match wsPlus (s.drop 4) with
    | none => none
    | some r =>
      let q := r.takeWhile isDigitDot
      if q.isEmpty then none
      else if dollarAt (r.dropWhile isDigitDot) then some (digitsToNat (s.take 4), q)
      else none
  else none

/-- `^(\d{4})\s+(.*)$` (the format-3 year/rest line). -/
def yearRestMatch (s : Str) : Option (ℕ × Str) :=
  if (s.take 4).length = 4 ∧ (s.take 4).all isDigitC then
    match wsPlus (s.drop 4) with
    | none => none
    | some r =>
      match dotStarDollar r with
      | some g => some (digitsToNat (s.take 4), g)
      | none => none
  else none

/-- `^(\d{4})(?:\s+(.*))?$` (the format-1 year line); the second component
is the optional extra-description capture. -/
def yearLineMatch (s : Str) : Option (ℕ × Option Str) :=
  if (s.take 4).length = 4 ∧ (s.take 4).all isDigitC then
    let r := s.drop 4
    if dollarAt r then some (digitsToNat (s.take 4), none)
    else
      match wsPlus r with
      | none => none
      | some r1 =>
        match dotStarDollar r1 with
        | some g => some (digitsToNat (s.take 4), some g)
        | none => none
  else none

/-- `quantity:\s*([\d.]+)` (the format-3 quantity search). -/
def qtyAt (s : Str) : Option Str :=
  match lit (str "quantity:") s with
  | none => none
  | some s1 =>
    match takeClass isDigitDot (s1.dropWhile isWs) with
    | none => none
    | some (q, _) => some q

/-- `,?\s*quantity:\s*[\d.]+` at one position; returns the rest after the
match.  (If the optional comma is present but the remainder fails, the
comma-less alternative fails too, since the next piece cannot start on
`,`.) -/
def subQtyAt (s : Str) : Option Str :=
  let s1 := if s.headD ' ' = ',' then s.drop 1 else s
  match lit (str "quantity:") (s1.dropWhile isWs) with
  | none => none
  | some s2 =>
    let s3 := s2.dropWhile isWs
    if (s3.takeWhile isDigitDot).isEmpty then none
    else some (s3.dropWhile isDigitDot)

/-- `re.sub(r",?\s*quantity:\s*[\d.]+", "", s)`: remove every
non-overlapping match, scanning left to right. -/
def subQty : ℕ → Str → Str
  | 0, s => s
  | _, [] => []
  | fuel + 1, c :: t =>
    match subQtyAt (c :: t) with
    | some r => subQty fuel r
    | none => c :: subQty fuel t

/-- `-?[\d.]+,\d{2}` at one position; returns (capture, rest). -/
def amtCore (s : Str) : Option (Str × Str) :=
  let sgn : Bool := s.headD ' ' = '-'
  let s1 := if sgn then s.drop 1 else s
  let ds := s1.takeWhile isDigitDot
  let s2 := s1.dropWhile isDigitDot
  if ds.isEmpty then none
  else if s2.headD ' ' = ',' ∧ ((s2.drop 1).headD ' ').isDigit ∧
      ((s2.drop 2).headD ' ').isDigit ∧ 3 ≤ s2.length then
    some ((if sgn then ['-'] else []) ++ ds ++ [',', (s2.drop 1).headD ' ',
      (s2.drop 2).headD ' '], s2.drop 3)
  else none

/-- `(-?[\d.]+,\d{2})\s*â‚¬` at one position (the amount extractor);
returns (capture, rest after the euro sign). -/
def amtAt (s : Str) : Option (Str × Str) :=
  match amtCore s with
  | none => none
  | some (g, r) =>
    match lit euroStr (r.dropWhile isWs) with
    | some r2 => some (g, r2)
    | none => none

/-- `re.findall(amount_pattern, s)`: leftmost non-overlapping matches. -/
def findAmounts : ℕ → Str → List Str
  | 0, _ => []
  | _, [] => []
  | fuel + 1, c :: t =>
    match amtAt (c :: t) with
    | some (g, r) => g :: findAmounts fuel r
    | none => findAmounts fuel t

/-- `\s*-?[\d.]+,\d{2}\s*â‚¬` at one position (the amount remover). -/
def subAmtAt (s : Str) : Option Str :=
  match amtCore (s.dropWhile isWs) with
  | none => none
  | some (_, r) =>
    match lit euroStr (r.dropWhile isWs) with
    | some r2 => some r2
    | none => none

/-- `re.sub(r"\s*-?[\d.]+,\d{2}\s*â‚¬", "", s)`. -/
def subAmounts : ℕ → Str → Str
  | 0, s => s
  | _, [] => []
  | fuel + 1, c :: t =>
    match subAmtAt (c :: t) with
    | some r => subAmounts fuel r
    | none => c :: subAmounts fuel t

/-- `\b(20\d{2})\b` anchored at one position, given the previous character
(for the left word boundary). -/
def year20At (prev : Option Char) (s : Str) : Option ℕ :=
  if (s.take 4).length = 4 ∧ (s.take 4).take 2 = str "20" ∧
      ((s.take 4).drop 2).all isDigitC ∧
      prev.all (fun p => !isWordPy p) = true ∧
      (s.drop 4).head?.all (fun c => !isWordPy c) = true then
    some (digitsToNat (s.take 4))
  else none

/-- `re.search(r"\b(20\d{2})\b", s)`. -/
def searchYear20 : Option Char → Str → Option ℕ
  | _, [] => none
  | prev, c :: t =>
    match year20At prev (c :: t) with
    | some y => some y
    | none => searchYear20 (some c) t

/-- `[ÃœÃ¼]` under IGNORECASE: the bytes `Ã`, `œ`, `¼` of the two damaged
umlauts, plus the case-folds `ã` and `Œ`.  (A single-character class: the
two-character damaged `Ãœ`/`Ã¼` spellings can never match `[ÃœÃ¼]berweisung`
as a whole — embedded faithfully.) -/
def isUeCls (c : Char) : Bool :=
  c = chA || c = Char.ofNat 227 || c = chUE || c = Char.ofNat 338 || c = chUe

/-- `[Ã¤a]` under IGNORECASE: `Ã`, `¤`, `a`, plus the case-folds `ã`, `A`.
(Likewise, the damaged two-character `Ã¤` never matches the class.) -/
def isAeCls (c : Char) : Bool :=
  c = chA || c = Char.ofNat 227 || c = chAe || c = 'a' || c = 'A'

/-- `^[ÃœÃ¼]berweisung\s*(.+)$` (IGNORECASE). -/
def typ1 (s : Str) : Option Str :=
  match s with
  | [] => none
  | c :: r =>
    if isUeCls c then
      match litCI (str "berweisung") r with
      | some r1 => wsStarDotPlus r1
      | none => none
    else none

/-- `^Handel\s+(.+)$` (IGNORECASE). -/
def typ2 (s : Str) : Option Str :=
  match litCI (str "Handel") s with
  | some r => wsDotPlus r
  | none => none

/-- `^Steuern\s+(.+)$` (IGNORECASE). -/
def typ3 (s : Str) : Option Str :=
  match litCI (str "Steuern") s with
  | some r => wsDotPlus r
  | none => none

/-- `^Ertr[Ã¤a]ge\s*(.+)$` (IGNORECASE). -/
def typ4 (s : Str) : Option Str :=
  match litCI (str "Ertr") s with
  | none => none
  | some r =>
    match r with
    | [] => none
    | c :: r1 =>
      if isAeCls c then
        match litCI (str "ge") r1 with
        | some r2 => wsStarDotPlus r2
        | none => none
      else none

/-- The damaged `"Ãœberweisung"` type constant. -/
def typUeName : Str := umlUE ++ str "berweisung"

/-- The damaged `"ErtrÃ¤ge"` type constant. -/
def typErtName : Str := str "Ertr" ++ umlAe ++ str "ge"

/-- The `typ_patterns` loop (lines 406–425): first matching pattern wins;
returns (type name, group 1). -/
def typMatch (s : Str) : Option (Str × Str) :=
  match typ1 s with
  | some g => some (typUeName, g)
  | none =>
    match typ2 s with
    | some g => some (str "Handel", g)
    | none =>
      match typ3 s with
      | some g => some (str "Steuern", g)
      | none =>
        match typ4 s with
        | some g => some (typErtName, g)
        | none => none

/-- Decimal expansion of the fractional part of a nonnegative rational
(stops at zero; fuel-bounded). -/
def fracExpand : ℚ → ℕ → Str
  | _, 0 => []
  | r, fuel + 1 =>
    if r = 0 then []
    else digitToChar (⌊r * 10⌋).toNat :: fracExpand (r * 10 - (⌊r * 10⌋ : ℚ)) fuel

/-- `str(float)` as interpolated by the reader's f-strings, under the exact
decimal model of floats used throughout this file: sign, integer digits, a
dot, and the (finite) fraction digits, `.0` for integers.  Only the
`verwendungszweck` display field of PDF transactions depends on it, and no
claim inspects that field on those transactions. -/
def pyFloatRepr (q : ℚ) : Str :=
  (if q < 0 then ['-'] else []) ++ natDigitsStr (⌊|q|⌋).toNat ++ ['.'] ++
    (if |q| - (⌊|q|⌋ : ℚ) = 0 then ['0'] else fracExpand (|q| - (⌊|q|⌋ : ℚ)) 17)

/-- `s.rstrip(",")`. -/
def rstripCommas (s : Str) : Str := (s.reverse.dropWhile (fun c => c = ',')).reverse

/-- The buy-amount selection used at lines 277, 364, 478 and 486:
`-abs(parse_german_number(amounts[-2])) if len(amounts) >= 2 else
-abs(parse_german_number(amounts[0]))`. -/
def buyBetrag (amounts : List Str) : ℚ :=
  if 2 ≤ amounts.length then -|parse_german_number (amounts.getD (amounts.length - 2) [])|
  else -|parse_german_number (amounts.getD 0 [])|

/-- The sell-amount selection used at lines 279, 366, 481, 484 and 488:
`abs(parse_german_number(amounts[0]))`. -/
def sellBetrag (amounts : List Str) : ℚ :=
  |parse_german_number (amounts.getD 0 [])|

/-- The success path of format 2 (lines 242–295), from the captured groups
and the two follow-up lines: extract amounts and year/quantity, resolve the
date, and build the transaction; `none` on any of the `continue` branches
(failed year/quantity match, unknown month, invalid date). -/
def fmt2Trans (day mon dirRaw isin nmRaw amounts_line year_qty_line : Str) :
    Option Transaction :=
  let amounts := findAmounts amounts_line.length amounts_line
  match yearQtyMatch year_qty_line with
  | none => none
  | some (year, qstr) =>
    let quantity := (parseFloatLit qstr).getD 0
    match monthLookup2 mon with
    | none => none
    | some month =>
      match mkDatetime year month (digitsToNat day) with
      | none => none
      | some datum =>
        let is_buy := (dirRaw.map lowC) == str "buy"
        let betrag := if amounts.isEmpty then 0
          else if is_buy then buyBetrag amounts else sellBetrag amounts
        let name := trimChars nmRaw
        some { datum := datum, valuta := datum, betrag := betrag,
               status := str "gebucht",
               verwendungszweck := dirRaw ++ str " trade " ++ isin ++ str " " ++
                 name ++ str ", quantity: " ++ pyFloatRepr quantity,
               iban := [], typ := str "Order", isin := isin, name := name,
               stueck := quantity, is_kauf := is_buy, is_verkauf := !is_buy }

/-- The success path of format 3 (lines 316–386), analogously; the year line
carries the name continuation and (possibly) the quantity. -/
def fmt3Trans (day mon dirRaw isin nm1Raw amounts_line year_rest_line : Str) :
    Option Transaction :=
  let amounts := findAmounts amounts_line.length amounts_line
  match yearRestMatch year_rest_line with
  | none => none
  | some (year, restContent) =>
    let qn : ℚ × Str :=
      match reSearch qtyAt restContent with
      | some qs => ((parseFloatLit qs).getD 0,
          trimChars (subQty restContent.length restContent))
      | none => (0, trimChars restContent)
    let full_name := rstripCommas
      (trimChars (trimChars nm1Raw ++ str " " ++ qn.2))
    match monthLookup2 mon with
    | none => none
    | some month =>
      match mkDatetime year month (digitsToNat day) with
      | none => none
      | some datum =>
        let is_buy := (dirRaw.map lowC) == str "buy"
        let betrag := if amounts.isEmpty then 0
          else if is_buy then buyBetrag amounts else sellBetrag amounts
        some { datum := datum, valuta := datum, betrag := betrag,
               status := str "gebucht",
               verwendungszweck := dirRaw ++ str " trade " ++ isin ++ str " " ++
                 full_name ++ str ", quantity: " ++ pyFloatRepr qn.1,
               iban := [], typ := str "Order", isin := isin, name := full_name,
               stueck := qn.1, is_kauf := is_buy, is_verkauf := !is_buy }

/-- Date resolution of format 1 (lines 443–462). -/
def fmt1Date (mon day : Str) (yearOpt : Option ℕ) : Option Date :=
  match yearOpt with
  | none => none
  | some year =>
    match monthLookup2 mon with
    | none => none
    | some month => mkDatetime year month (digitsToNat day)

/-- The transaction built by format 1 (lines 464–501) from the matched type,
the accumulated rest data and the resolved date: split off the amounts,
choose the signed amount by type and direction keywords, then classify the
remaining description. -/
def fmt1Trans (trTyp restData : Str) (datum : Date) : Transaction :=
  let amounts := findAmounts restData.length restData
  let beschreibung := trimChars (subAmounts restData.length restData)
  let betrag :=
    if amounts.isEmpty then 0
    else if trTyp == str "Handel" then
      (if containsSub (str "Buy trade") beschreibung then buyBetrag amounts
       else if containsSub (str "Sell trade") beschreibung then sellBetrag amounts
       else 0)
    else if trTyp == typUeName then
      (if containsSub (str "Incoming") beschreibung then sellBetrag amounts
       else if containsSub (str "Outgoing") beschreibung then buyBetrag amounts
       else 0)
    else if trTyp == str "Steuern" ∨ trTyp == typErtName then sellBetrag amounts
    else 0
  parse_trade_republic_beschreibung beschreibung
    { datum := datum, valuta := datum, betrag := betrag,
      status := str "gebucht", verwendungszweck := beschreibung, iban := [] }

/-- Format 1's year hunt (lines 430–449): consume a matching year line (the
extra text joins the rest data); a zero or missing year falls back to a
`20\d\d` search in the data line.  Returns (year option, rest data, resume
suffix on failure, resume suffix on success). -/
def fmt1Info (data_line restData0 : Str) (d0 : Str) (rest1 : List Str) :
    Option ℕ × Str × List Str × List Str :=
  match rest1 with
  | y :: rest2 =>
    (match yearLineMatch (trimChars y) with
     | some (yr, extra) =>
       (if yr ≠ 0 then some yr else searchYear20 none data_line,
        if (extra.getD []).isEmpty then restData0
        else restData0 ++ str " " ++ extra.getD [],
        rest1, rest2)
     | none => (searchYear20 none data_line, restData0, d0 :: rest1, rest1))
  | [] => (searchYear20 none data_line, restData0, d0 :: rest1, rest1)

/-- The `while i < len(lines)` loop of `read_trade_republic_pdf`
(lines 182–505), recursing on the unprocessed suffix of `lines`.  Every
Python iteration advances `i` by at least one, so the suffix shrinks
strictly and `fuel = lines.length` suffices.  The failure `continue`s of
formats 2 and 3 resume at the already-fetched year line (it is reprocessed
as a fresh line); format 1's resume points likewise follow the source's
`i` bookkeeping exactly. -/
def trLoopAux : ℕ → List Str → List Transaction
  | 0, _ => []
  | _, [] => []
  | fuel + 1, l0 :: rest =>
    let line := trimChars l0
    if isSkipLine line then trLoopAux fuel rest
    else
      match fmt2Match (normalize_tr_text line) with
      | some (day, mon, dirRaw, isin, nmRaw) =>
        (match rest with
         | a :: y :: rest2 =>
           (match fmt2Trans day mon dirRaw isin nmRaw
               (normalize_tr_text (trimChars a)) (normalize_tr_text (trimChars y)) with
            | none => trLoopAux fuel (y :: rest2)
            | some t0 => t0 :: trLoopAux fuel rest2)
         | _ => trLoopAux fuel rest)
      | none =>
      match fmt3Match (normalize_tr_text line) with
      | some (day, mon, dirRaw, isin, nm1Raw) =>
        (match rest with
         | a :: y :: rest2 =>
           (match fmt3Trans day mon dirRaw isin nm1Raw
               (normalize_tr_text (trimChars a)) (normalize_tr_text (trimChars y)) with
            | none => trLoopAux fuel (y :: rest2)
            | some t0 => t0 :: trLoopAux fuel rest2)
         | _ => trLoopAux fuel rest)
      | none =>
      match fmt1Match line with
      | some (day, mon) =>
        (match rest with
         | [] => trLoopAux fuel []
         | d0 :: rest1 =>
           let data_line := normalize_tr_text (trimChars d0)
           (match typMatch data_line with
            | none => trLoopAux fuel rest
            | some (trTyp, restData0) =>
              let info := fmt1Info data_line restData0 d0 rest1
              (match fmt1Date mon day info.1 with
               | none => trLoopAux fuel info.2.2.1
               | some datum =>
                 fmt1Trans trTyp info.2.1 datum :: trLoopAux fuel info.2.2.2)))
      | none => trLoopAux fuel rest

/-- `read_trade_republic_pdf`, from the extracted line list downward. -/
def read_trade_republic_pdf (lines : List Str) : List Transaction :=
  trLoopAux lines.length lines

/-! ## Support lemmas for the classifier invariants -/

theorem mem_trimChars {s : Str} {c : Char} (h : c ∈ trimChars s) : c ∈ s := by
  unfold trimChars at h
  rw [List.mem_reverse] at h
  have h2 := (List.dropWhile_sublist _).subset h
  rw [List.mem_reverse] at h2
  exact (List.dropWhile_sublist _).subset h2

theorem mem_cleanNum {s : Str} {c : Char} (h : c ∈ cleanNum s) (hm : '-' ∉ s) :
    c ≠ '-' := by
  unfold cleanNum at h
  obtain ⟨c', hc', rfl⟩ := List.mem_map.mp h
  have hs : c' ∈ s := (List.filter_sublist _).subset hc'
  by_cases hcm : c' = ','
  · simp [hcm]
  · simp only [if_neg hcm]
    exact fun hc => hm (hc ▸ hs)

theorem parseUnsignedFloat_nonneg {s : Str} {q : ℚ}
    (h : parseUnsignedFloat s = some q) : 0 ≤ q := by
  unfold parseUnsignedFloat at h
  dsimp only at h
  split at h
  · split at h
    · exact absurd h (by simp)
    · obtain rfl : _ = q := Option.some.inj h
      positivity
  · split at h
    · obtain rfl : _ = q := Option.some.inj h
      positivity
    · exact absurd h (by simp)

theorem parseFloatLit_getD_nonneg {s : Str} (h : ∀ c ∈ s, c ≠ '-') :
    0 ≤ (parseFloatLit s).getD 0 := by
  have key : ∀ r : Str, 0 ≤ (parseUnsignedFloat r).getD 0 := by
    intro r
    cases hu : parseUnsignedFloat r with
    | none => simp
    | some q => simpa using parseUnsignedFloat_nonneg hu
  rw [parseFloatLit.eq_def]
  split
  · exact absurd rfl (h '-' (List.mem_cons_self _ _))
  · exact key _
  · exact key _

theorem parse_german_number_nonneg {s : Str} (h : ∀ c ∈ s, c ≠ '-') :
    0 ≤ parse_german_number s := by
  rw [parse_german_number]
  split
  · exact le_refl 0
  · have hcs : ∀ c ∈ cleanNum (trimChars s), c ≠ '-' := fun c hc =>
      mem_cleanNum hc (fun hm => h '-' (mem_trimChars hm) rfl)
    have := parseFloatLit_getD_nonneg hcs
    cases hc : parseFloatLit (cleanNum (trimChars s)) with
    | none => exact le_refl 0
    | some q => rw [hc] at this; simpa using this

theorem stkClean_no_minus (stk : Str) : ∀ c ∈ stkClean stk, c ≠ '-' := by
  intro c hc
  unfold stkClean at hc
  have := List.of_mem_filter hc
  simpa using this

theorem takeClass_mem {p : Char → Bool} {s g r : Str}
    (h : takeClass p s = some (g, r)) : ∀ c ∈ g, p c = true := by
  unfold takeClass at h
  split at h
  · exact absurd h (by simp)
  · simp only [Option.some.injEq, Prod.mk.injEq] at h
    obtain ⟨rfl, rfl⟩ := h
    exact fun c hc => List.mem_takeWhile_imp hc

theorem altKV_shape {s d r : Str} (h : altKV s = some (d, r)) :
    d = str "Kauf" ∨ d = str "Verkauf" := by
  unfold altKV at h
  cases h1 : lit (str "Kauf") s with
  | some r1 =>
    simp only [h1, Option.some.injEq, Prod.mk.injEq] at h
    exact Or.inl h.1.symm
  | none =>
    simp only [h1] at h
    cases h2 : lit (str "Verkauf") s with
    | some r2 =>
      simp only [h2, Option.some.injEq, Prod.mk.injEq] at h
      exact Or.inr h.1.symm
    | none => simp [h2] at h

theorem tailKV_dir {s : Str} {d nm stk : Str} (h : tailKV s = some (d, nm, stk)) :
    d = str "Kauf" ∨ d = str "Verkauf" := by
  unfold tailKV at h
  cases h1 : lit (str " - ") s with
  | none => simp [h1] at h
  | some s1 =>
    simp only [h1] at h
    cases h2 : altKV s1 with
    | none => simp [h2] at h
    | some p =>
      obtain ⟨dir, s2⟩ := p
      simp only [h2] at h
      cases h3 : wsPlus s2 with
      | none => simp [h3] at h
      | some s3 =>
        simp only [h3] at h
        cases h4 : lit (str "(") s3 with
        | none => simp [h4] at h
        | some s4 =>
          simp only [h4] at h
          cases h5 : lazySplit nameCont s4 with
          | none => simp [h5] at h
          | some q =>
            obtain ⟨nm1, stk1⟩ := q
            simp only [h5, Option.some.injEq, Prod.mk.injEq] at h
            exact h.1 ▸ altKV_shape h2

theorem orderAt_dir {s : Str} {nr isin d nm stk : Str}
    (h : orderAt s = some (nr, isin, d, nm, stk)) :
    d = str "Kauf" ∨ d = str "Verkauf" := by
  unfold orderAt at h
  cases h1 : lit (str "Order Nr ") s with
  | none => simp [h1] at h
  | some s1 =>
    simp only [h1] at h
    cases h2 : takeClass isDigitC s1 with
    | none => simp [h2] at h
    | some p =>
      obtain ⟨nr1, s2⟩ := p
      simp only [h2] at h
      cases h3 : lit (str " ISIN ") s2 with
      | none => simp [h3] at h
      | some s3 =>
        simp only [h3] at h
        cases h4 : exactClass isAZ09 12 s3 with
        | none => simp [h4] at h
        | some q =>
          obtain ⟨isin1, s4⟩ := q
          simp only [h4] at h
          cases h5 : tailKV s4 with
          | none => simp [h5] at h
          | some r =>
            obtain ⟨d1, nm1, stk1⟩ := r
            simp only [h5, Option.some.injEq, Prod.mk.injEq] at h
            exact h.2.2.1 ▸ tailKV_dir h5

theorem zuIsinAt_dir {kw s : Str} {isin d nm stk : Str}
    (h : zuIsinAt kw s = some (isin, d, nm, stk)) :
    d = str "Kauf" ∨ d = str "Verkauf" := by
  unfold zuIsinAt at h
  cases h1 : lit kw s with
  | none => simp [h1] at h
  | some s1 =>
    simp only [h1] at h
    cases h2 : exactClass isAZ09 12 s1 with
    | none => simp [h2] at h
    | some q =>
      obtain ⟨isin1, s2⟩ := q
      simp only [h2] at h
      cases h3 : tailKV s2 with
      | none => simp [h3] at h
      | some r =>
        obtain ⟨d1, nm1, stk1⟩ := r
        simp only [h3, Option.some.injEq, Prod.mk.injEq] at h
        exact h.2.1 ▸ tailKV_dir h3

/-- Transfer a property of an anchored matcher's result through `re.search`. -/
theorem reSearch_prop {β : Type} {m : Str → Option β} {P : β → Prop}
    (hm : ∀ s b, m s = some b → P b) :
    ∀ (s : Str) (b : β), reSearch m s = some b → P b := by
  intro s
  induction s with
  | nil => intro b h; exact hm [] b h
  | cons c t ih =>
    intro b h
    rw [reSearch] at h
    cases h1 : m (c :: t) with
    | some b1 => simp only [h1, Option.some.injEq] at h; exact h ▸ hm _ _ h1
    | none => simp only [h1] at h; exact ih b h

/-! ## C7: the flag/quantity invariant -/

/-- A trade-like kind: Order, Sparplan, Bruchstücke, or a WP-Abrechnung
narrative recognised as a sale. -/
def TradeLike (t : Transaction) : Prop :=
  t.typ = str "Order" ∨ t.typ = str "Sparplan" ∨ t.typ = bruchTyp ∨
    (t.typ = str "WP-Abrechnung" ∧ t.is_verkauf = true)

/-- The claimed invariant: exactly one direction flag on trade-like
transactions, no direction flag otherwise, and a nonnegative quantity. -/
def TxInvariant (t : Transaction) : Prop :=
  (TradeLike t → t.is_kauf = !t.is_verkauf) ∧
  (¬TradeLike t → t.is_kauf = false ∧ t.is_verkauf = false) ∧
  0 ≤ t.stueck

theorem txinv_simple {u : Transaction} (k : Str) (hty : u.typ = k)
    (hk : u.is_kauf = false) (hv : u.is_verkauf = false) (hs : 0 ≤ u.stueck)
    (h1 : k ≠ str "Order") (h2 : k ≠ str "Sparplan") (h3 : k ≠ bruchTyp)
    (h4 : k = str "WP-Abrechnung" → u.is_verkauf = false) :
    TxInvariant u := by
  have hnt : ¬TradeLike u := by
    rintro (h | h | h | ⟨h, h'⟩) <;> rw [hty] at h
    · exact h1 h
    · exact h2 h
    · exact h3 h
    · rw [h4 h] at h'
      exact Bool.false_ne_true h'
  exact ⟨fun htl => (hnt htl).elim, fun _ => ⟨hk, hv⟩, hs⟩

theorem txinv_trade {u : Transaction} (hdir : u.is_kauf = !u.is_verkauf)
    (htl : TradeLike u) (hs : 0 ≤ u.stueck) : TxInvariant u :=
  ⟨fun _ => hdir, fun hnt => (hnt htl).elim, hs⟩

theorem isQtyChar_ne_minus {c : Char} (h : isQtyChar c = true) : c ≠ '-' := by
  rintro rfl
  exact absurd h (by decide)

theorem isDigitDot_ne_minus {c : Char} (h : isDigitDot c = true) : c ≠ '-' := by
  rintro rfl
  exact absurd h (by decide)

theorem altBuySell_shape {s d r : Str} (h : altBuySell s = some (d, r)) :
    d = str "Buy" ∨ d = str "Sell" := by
  unfold altBuySell at h
  cases h1 : lit (str "Buy") s with
  | some r1 =>
    simp only [h1, Option.some.injEq, Prod.mk.injEq] at h
    exact Or.inl h.1.symm
  | none =>
    simp only [h1] at h
    cases h2 : lit (str "Sell") s with
    | some r2 =>
      simp only [h2, Option.some.injEq, Prod.mk.injEq] at h
      exact Or.inr h.1.symm
    | none => simp [h2] at h

theorem lazySplit_prop {β : Type} {cont : Str → Option β} {P : β → Prop}
    (hc : ∀ s b, cont s = some b → P b) :
    ∀ (s nm : Str) (b : β), lazySplit cont s = some (nm, b) → P b := by
  intro s
  induction s with
  | nil => intro nm b h; simp [lazySplit] at h
  | cons c t ih =>
    intro nm b h
    rw [lazySplit] at h
    split at h
    · exact absurd h (by simp)
    · cases h1 : cont t with
      | some b1 =>
        simp only [h1, Option.some.injEq, Prod.mk.injEq] at h
        exact h.2 ▸ hc t b1 h1
      | none =>
        simp only [h1] at h
        cases h2 : lazySplit cont t with
        | some p =>
          obtain ⟨nm1, b1⟩ := p
          simp only [h2, Option.some.injEq, Prod.mk.injEq] at h
          exact h.2 ▸ ih nm1 b1 h2
        | none => simp [h2] at h

theorem wsLazyName_prop {β : Type} {cont : Str → Option β} {P : β → Prop}
    (hc : ∀ s b, cont s = some b → P b) :
    ∀ (s nm : Str) (b : β), wsLazyName cont s = some (nm, b) → P b := by
  intro s nm b h
  unfold wsLazyName at h
  dsimp only at h
  split at h
  · exact absurd h (by simp)
  · split at h
    · rename_i nm1 b1 heq
      simp only [Option.some.injEq, Prod.mk.injEq] at h
      exact h.2 ▸ lazySplit_prop hc _ nm1 b1 heq
    · split at h
      · cases h1 : cont (s.dropWhile isWs) with
        | some b1 =>
          simp only [h1, Option.some.injEq, Prod.mk.injEq] at h
          exact h.2 ▸ hc _ b1 h1
        | none => simp [h1] at h
      · exact absurd h (by simp)

theorem bsCont_chars {s q : Str} (h : bsCont s = some q) :
    ∀ c ∈ q, isQtyChar c = true := by
  unfold bsCont at h
  cases h1 : lit (str ",") s with
  | none => simp [h1] at h
  | some s1 =>
    simp only [h1] at h
    cases h2 : lit (str "quantity:") (s1.dropWhile isWs) with
    | none => simp [h2] at h
    | some s2 =>
      simp only [h2] at h
      cases h3 : takeClass isQtyChar (s2.dropWhile isWs) with
      | none => simp [h3] at h
      | some p =>
        obtain ⟨q1, r1⟩ := p
        simp only [h3, Option.some.injEq] at h
        exact h ▸ takeClass_mem h3

theorem bsMatch_shape {s : Str} {d isin nm q : Str}
    (h : bsMatch s = some (d, isin, nm, q)) :
    (d = str "Buy" ∨ d = str "Sell") ∧ ∀ c ∈ q, isQtyChar c = true := by
  unfold bsMatch at h
  cases h1 : altBuySell s with
  | none => simp [h1] at h
  | some p =>
    obtain ⟨d1, s1⟩ := p
    simp only [h1] at h
    cases h2 : wsPlus s1 with
    | none => simp [h2] at h
    | some s2 =>
      simp only [h2] at h
      cases h3 : lit (str "trade") s2 with
      | none => simp [h3] at h
      | some s3 =>
        simp only [h3] at h
        cases h4 : wsPlus s3 with
        | none => simp [h4] at h
        | some s4 =>
          simp only [h4] at h
          cases h5 : exactClass isAZ09 12 s4 with
          | none => simp [h5] at h
          | some pq =>
            obtain ⟨isin1, s5⟩ := pq
            simp only [h5] at h
            cases h6 : wsLazyName bsCont s5 with
            | none => simp [h6] at h
            | some pr =>
              obtain ⟨nm1, q1⟩ := pr
              simp only [h6, Option.some.injEq, Prod.mk.injEq] at h
              refine ⟨h.1 ▸ altBuySell_shape h1, h.2.2.2 ▸ ?_⟩
              exact wsLazyName_prop (fun a b hb => bsCont_chars hb) s5 nm1 q1 h6

/-- Every narrative classification preserves the invariant, starting from a
transaction with cleared direction flags and nonnegative quantity. -/
theorem parse_verwendungszweck_invariant (zweck : Str) (t : Transaction)
    (hk : t.is_kauf = false) (hv : t.is_verkauf = false) (hs : 0 ≤ t.stueck) :
    TxInvariant (parse_verwendungszweck zweck t) := by
  unfold parse_verwendungszweck
  cases h1 : reSearch orderAt zweck with
  | some p =>
    obtain ⟨nr, isin, dir, nm, stk⟩ := p
    simp only [h1]
    have hdir : dir = str "Kauf" ∨ dir = str "Verkauf" :=
      @reSearch_prop (Str × Str × Str × Str × Str) orderAt
        (fun b => b.2.2.1 = str "Kauf" ∨ b.2.2.1 = str "Verkauf")
        (fun s b hb => by
          obtain ⟨b1, b2, b3, b4, b5⟩ := b
          exact orderAt_dir hb) zweck _ h1
    refine txinv_trade ?_ (Or.inl rfl) ?_
    · rcases hdir with rfl | rfl
      · exact show (str "Kauf" == str "Kauf") = !(str "Kauf" == str "Verkauf") from by decide
      · exact show (str "Verkauf" == str "Kauf") = !(str "Verkauf" == str "Verkauf") from by decide
    · exact parse_german_number_nonneg (stkClean_no_minus stk)
  | none =>
  simp only [h1]
  cases h2 : reSearch (zuIsinAt sparKw) zweck with
  | some p =>
    obtain ⟨isin, dir, nm, stk⟩ := p
    simp only [h2]
    have hdir : dir = str "Kauf" ∨ dir = str "Verkauf" :=
      @reSearch_prop (Str × Str × Str × Str) (zuIsinAt sparKw)
        (fun b => b.2.1 = str "Kauf" ∨ b.2.1 = str "Verkauf")
        (fun s b hb => by
          obtain ⟨b1, b2, b3, b4⟩ := b
          exact zuIsinAt_dir hb) zweck _ h2
    refine txinv_trade ?_ (Or.inr (Or.inl rfl)) ?_
    · rcases hdir with rfl | rfl
      · exact show (str "Kauf" == str "Kauf") = !(str "Kauf" == str "Verkauf") from by decide
      · exact show (str "Verkauf" == str "Kauf") = !(str "Verkauf" == str "Verkauf") from by decide
    · exact parse_german_number_nonneg (stkClean_no_minus stk)
  | none =>
  simp only [h2]
  cases h3 : reSearch (zuIsinAt bruchKw) zweck with
  | some p =>
    obtain ⟨isin, dir, nm, stk⟩ := p
    simp only [h3]
    have hdir : dir = str "Kauf" ∨ dir = str "Verkauf" :=
      @reSearch_prop (Str × Str × Str × Str) (zuIsinAt bruchKw)
        (fun b => b.2.1 = str "Kauf" ∨ b.2.1 = str "Verkauf")
        (fun s b hb => by
          obtain ⟨b1, b2, b3, b4⟩ := b
          exact zuIsinAt_dir hb) zweck _ h3
    refine txinv_trade ?_ (Or.inr (Or.inr (Or.inl rfl))) ?_
    · rcases hdir with rfl | rfl
      · exact show (str "Kauf" == str "Kauf") = !(str "Kauf" == str "Verkauf") from by decide
      · exact show (str "Verkauf" == str "Kauf") = !(str "Verkauf" == str "Verkauf") from by decide
    · exact parse_german_number_nonneg (stkClean_no_minus stk)
  | none =>
  simp only [h3]
  split
  · exact txinv_simple (str "Einzahlung") rfl hk hv hs (by decide) (by decide) (by decide) (fun _ => hv)
  · split
    · exact txinv_simple (str "Auszahlung") rfl hk hv hs (by decide) (by decide) (by decide) (fun _ => hv)
    · split
      · exact txinv_simple (str "Lastschrift") rfl hk hv hs (by decide) (by decide) (by decide) (fun _ => hv)
      · split
        · -- Coupons/Dividende
          cases h4 : reSearch isinAt zweck with
          | some isin =>
            simp only [h4]
            exact txinv_simple (str "Dividende") rfl hk hv hs (by decide) (by decide) (by decide)
              (fun _ => hv)
          | none =>
            simp only [h4]
            exact txinv_simple (str "Dividende") rfl hk hv hs (by decide) (by decide) (by decide)
              (fun _ => hv)
        · split
          · exact txinv_simple (str "Steuerausgleich") rfl hk hv hs (by decide) (by decide) (by decide)
              (fun _ => hv)
          · split
            · -- Vorabpauschale
              cases h5 : reSearch isinAt zweck with
              | some isin =>
                simp only [h5]
                exact txinv_simple (str "Vorabpauschale") rfl hk hv hs (by decide) (by decide) (by decide)
                  (fun _ => hv)
              | none =>
                simp only [h5]
                exact txinv_simple (str "Vorabpauschale") rfl hk hv hs (by decide) (by decide) (by decide)
                  (fun _ => hv)
            · split
              · -- WP-Abrechnung
                cases h6 : reSearch wpAt zweck with
                | some p =>
                  obtain ⟨isin, stk⟩ := p
                  simp only [h6]
                  refine txinv_trade hk (Or.inr (Or.inr (Or.inr ⟨rfl, rfl⟩))) ?_
                  exact parse_german_number_nonneg (stkClean_no_minus stk)
                | none =>
                  simp only [h6]
                  exact txinv_simple (str "WP-Abrechnung") rfl hk hv hs (by decide) (by decide) (by decide)
                    (fun _ => hv)
              · split
                · exact txinv_simple (str "KKT-Abschluss") rfl hk hv hs (by decide) (by decide) (by decide)
                    (fun _ => hv)
                · exact txinv_simple (str "Sonstig") rfl hk hv hs (by decide) (by decide) (by decide)
                    (fun _ => hv)

/-- The PDF description classifier likewise preserves the invariant. -/
theorem beschreibung_invariant (b : Str) (t : Transaction)
    (hk : t.is_kauf = false) (hv : t.is_verkauf = false) (hs : 0 ≤ t.stueck) :
    TxInvariant (parse_trade_republic_beschreibung b t) := by
  unfold parse_trade_republic_beschreibung
  dsimp only
  cases h1 : bsMatch (trimChars b) with
  | some p =>
    obtain ⟨dir, isin, nm, q⟩ := p
    simp only [h1]
    obtain ⟨hdir, hq⟩ := bsMatch_shape h1
    refine txinv_trade ?_ (Or.inl rfl) ?_
    · rcases hdir with rfl | rfl
      · exact show (str "Buy" == str "Buy") = !(str "Buy" == str "Sell") from by decide
      · exact show (str "Sell" == str "Buy") = !(str "Sell" == str "Sell") from by decide
    · refine parseFloatLit_getD_nonneg (fun c hc => ?_)
      exact isQtyChar_ne_minus (hq c ((List.filter_sublist _).subset hc))
  | none =>
    simp only [h1]
    split
    · exact txinv_simple (str "Einzahlung") rfl hk hv hs (by decide) (by decide) (by decide) (fun _ => hv)
    · split
      · exact txinv_simple (str "Auszahlung") rfl hk hv hs (by decide) (by decide) (by decide)
          (fun _ => hv)
      · split
        · exact txinv_simple (str "Steuerausgleich") rfl hk hv hs (by decide) (by decide) (by decide)
            (fun _ => hv)
        · cases h2 : cdMatch (trimChars b) with
          | some isin =>
            simp only [h2]
            exact txinv_simple (str "Dividende") rfl hk hv hs (by decide) (by decide) (by decide)
              (fun _ => hv)
          | none =>
            simp only [h2]
            exact txinv_simple (str "Sonstig") rfl hk hv hs (by decide) (by decide) (by decide)
              (fun _ => hv)

theorem yearQtyMatch_chars {s : Str} {y : ℕ} {q : Str}
    (h : yearQtyMatch s = some (y, q)) : ∀ c ∈ q, isDigitDot c = true := by
  unfold yearQtyMatch at h
  split at h
  · cases h1 : wsPlus (s.drop 4) with
    | none => simp [h1] at h
    | some r =>
      simp only [h1] at h
      split at h
      · exact absurd h (by simp)
      · split at h
        · simp only [Option.some.injEq, Prod.mk.injEq] at h
          exact h.2 ▸ fun c hc => List.mem_takeWhile_imp hc
        · exact absurd h (by simp)
  · exact absurd h (by simp)

theorem qtyAt_chars {s q : Str} (h : qtyAt s = some q) :
    ∀ c ∈ q, isDigitDot c = true := by
  unfold qtyAt at h
  cases h1 : lit (str "quantity:") s with
  | none => simp [h1] at h
  | some s1 =>
    simp only [h1] at h
    cases h2 : takeClass isDigitDot (s1.dropWhile isWs) with
    | none => simp [h2] at h
    | some p =>
      obtain ⟨q1, r1⟩ := p
      simp only [h2, Option.some.injEq] at h
      exact h ▸ takeClass_mem h2

theorem beschreibung_preserves (b : Str) (t : Transaction) :
    (parse_trade_republic_beschreibung b t).datum = t.datum ∧
    (parse_trade_republic_beschreibung b t).valuta = t.valuta ∧
    (parse_trade_republic_beschreibung b t).status = t.status ∧
    (parse_trade_republic_beschreibung b t).iban = t.iban ∧
    (parse_trade_republic_beschreibung b t).betrag = t.betrag := by
  unfold parse_trade_republic_beschreibung
  dsimp only
  repeat' split
  all_goals exact ⟨rfl, rfl, rfl, rfl, rfl⟩


theorem fmt2Trans_facts {day mon dirRaw isin nmRaw al yl : Str} {t : Transaction}
    (h : fmt2Trans day mon dirRaw isin nmRaw al yl = some t) :
    (t.valuta = t.datum ∧ t.status = str "gebucht" ∧ t.iban = []) ∧ TxInvariant t := by
  unfold fmt2Trans at h
  dsimp only at h
  cases h1 : yearQtyMatch yl with
  | none => simp [h1] at h
  | some p =>
    obtain ⟨year, qstr⟩ := p
    simp only [h1] at h
    cases h2 : monthLookup2 mon with
    | none => simp [h2] at h
    | some month =>
      simp only [h2] at h
      cases h3 : mkDatetime year month (digitsToNat day) with
      | none => simp [h3] at h
      | some datum =>
        simp only [h3, Option.some.injEq] at h
        subst h
        refine ⟨⟨rfl, rfl, rfl⟩, txinv_trade (Bool.not_not _).symm (Or.inl rfl) ?_⟩
        exact parseFloatLit_getD_nonneg
          (fun c hc => isDigitDot_ne_minus (yearQtyMatch_chars h1 c hc))

theorem fmt3Trans_facts {day mon dirRaw isin nm1Raw al yl : Str} {t : Transaction}
    (h : fmt3Trans day mon dirRaw isin nm1Raw al yl = some t) :
    (t.valuta = t.datum ∧ t.status = str "gebucht" ∧ t.iban = []) ∧ TxInvariant t := by
  unfold fmt3Trans at h
  dsimp only at h
  cases h1 : yearRestMatch yl with
  | none => simp [h1] at h
  | some p =>
    obtain ⟨year, restContent⟩ := p
    simp only [h1] at h
    cases h2 : monthLookup2 mon with
    | none => simp [h2] at h
    | some month =>
      simp only [h2] at h
      cases h3 : mkDatetime year month (digitsToNat day) with
      | none => simp [h3] at h
      | some datum =>
        simp only [h3, Option.some.injEq] at h
        cases h4 : reSearch qtyAt restContent with
        | some qs =>
          simp only [h4] at h
          subst h
          refine ⟨⟨rfl, rfl, rfl⟩, txinv_trade (Bool.not_not _).symm (Or.inl rfl) ?_⟩
          exact parseFloatLit_getD_nonneg
            (fun c hc => isDigitDot_ne_minus
              (@reSearch_prop Str qtyAt (fun g => ∀ c ∈ g, isDigitDot c = true)
                (fun u g hg => qtyAt_chars hg) restContent qs h4 c hc))
        | none =>
          simp only [h4] at h
          subst h
          exact ⟨⟨rfl, rfl, rfl⟩,
            txinv_trade (Bool.not_not _).symm (Or.inl rfl) (le_refl 0)⟩

theorem fmt1Trans_facts (trTyp restData : Str) (datum : Date) :
    ((fmt1Trans trTyp restData datum).valuta = (fmt1Trans trTyp restData datum).datum ∧
     (fmt1Trans trTyp restData datum).status = str "gebucht" ∧
     (fmt1Trans trTyp restData datum).iban = []) ∧
    TxInvariant (fmt1Trans trTyp restData datum) := by
  unfold fmt1Trans
  dsimp only
  obtain ⟨hd1, hv1, hs1, hi1, -⟩ :=
    beschreibung_preserves (trimChars (subAmounts restData.length restData)) _
  exact ⟨⟨hv1.trans hd1.symm, hs1, hi1⟩,
    beschreibung_invariant _ _ rfl rfl (le_refl 0)⟩

/-- Every transaction the PDF loop emits has value date equal to trade date,
status `"gebucht"`, empty IBAN, and satisfies the flag/quantity invariant. -/
theorem trLoopAux_facts : ∀ (fuel : ℕ) (ls : List Str) (t : Transaction),
    t ∈ trLoopAux fuel ls →
    (t.valuta = t.datum ∧ t.status = str "gebucht" ∧ t.iban = []) ∧ TxInvariant t := by
  intro fuel
  induction fuel with
  | zero =>
    intro ls t ht
    cases ls with
    | nil => exact absurd ht (List.not_mem_nil t)
    | cons a b => exact absurd ht (List.not_mem_nil t)
  | succ n ih =>
    intro ls t ht
    cases ls with
    | nil => exact absurd ht (List.not_mem_nil t)
    | cons l0 rest =>
      rw [trLoopAux] at ht
      dsimp only at ht
      by_cases hsk : isSkipLine (trimChars l0)
      · rw [if_pos hsk] at ht
        exact ih _ _ ht
      · rw [if_neg hsk] at ht
        cases h2 : fmt2Match (normalize_tr_text (trimChars l0)) with
        | some p =>
          obtain ⟨day, mon, dirRaw, isin, nmRaw⟩ := p
          simp only [h2] at ht
          cases rest with
          | nil => exact ih _ _ ht
          | cons a rest' =>
            cases rest' with
            | nil => exact ih _ _ ht
            | cons y rest2 =>
              cases h3 : fmt2Trans day mon dirRaw isin nmRaw
                  (normalize_tr_text (trimChars a)) (normalize_tr_text (trimChars y)) with
              | none =>
                simp only [h3] at ht
                exact ih _ _ ht
              | some t0 =>
                simp only [h3] at ht
                rcases List.mem_cons.mp ht with rfl | ht2
                · exact fmt2Trans_facts h3
                · exact ih _ _ ht2
        | none =>
          simp only [h2] at ht
          cases h4 : fmt3Match (normalize_tr_text (trimChars l0)) with
          | some p =>
            obtain ⟨day, mon, dirRaw, isin, nm1Raw⟩ := p
            simp only [h4] at ht
            cases rest with
            | nil => exact ih _ _ ht
            | cons a rest' =>
              cases rest' with
              | nil => exact ih _ _ ht
              | cons y rest2 =>
                cases h5 : fmt3Trans day mon dirRaw isin nm1Raw
                    (normalize_tr_text (trimChars a)) (normalize_tr_text (trimChars y)) with
                | none =>
                  simp only [h5] at ht
                  exact ih _ _ ht
                | some t0 =>
                  simp only [h5] at ht
                  rcases List.mem_cons.mp ht with rfl | ht2
                  · exact fmt3Trans_facts h5
                  · exact ih _ _ ht2
          | none =>
            simp only [h4] at ht
            cases h6 : fmt1Match (trimChars l0) with
            | some p =>
              obtain ⟨day, mon⟩ := p
              simp only [h6] at ht
              cases rest with
              | nil => exact ih _ _ ht
              | cons d0 rest1 =>
                cases h7 : typMatch (normalize_tr_text (trimChars d0)) with
                | none =>
                  simp only [h7] at ht
                  exact ih _ _ ht
                | some q =>
                  obtain ⟨trTyp, restData0⟩ := q
                  simp only [h7] at ht
                  cases h8 : fmt1Date mon day
                      (fmt1Info (normalize_tr_text (trimChars d0)) restData0 d0 rest1).1 with
                  | none =>
                    simp only [h8] at ht
                    exact ih _ _ ht
                  | some datum =>
                    simp only [h8] at ht
                    rcases List.mem_cons.mp ht with rfl | ht2
                    · exact fmt1Trans_facts _ _ _
                    · exact ih _ _ ht2
            | none =>
              simp only [h6] at ht
              exact ih _ _ ht

/-- A throwaway default transaction (only used as `headD` fallback). -/
def txDefault : Transaction :=
  { datum := dateMin, valuta := dateMin, betrag := 0, status := [],
    verwendungszweck := [], iban := [] }

/-- **C7.** Every transaction produced by classification — on the CSV side a
row built by `read_csv` and classified by `parse_verwendungszweck`, on the
PDF side any output of `read_trade_republic_pdf` (whose format-1 branch runs
`parse_trade_republic_beschreibung`) — has exactly one direction flag when
its kind is trade-like (Order, Sparplan, Bruchstücke, WP-Abrechnung-as-sale),
has both flags false otherwise, and has nonnegative quantity. -/
theorem classifier_flag_invariant :
    (∀ datumS valutaS betragS statusS zweckS ibanS : Str,
       TxInvariant (read_csv_row datumS valutaS betragS statusS zweckS ibanS)) ∧
    (∀ (lines : List Str), ∀ t ∈ read_trade_republic_pdf lines, TxInvariant t) := by
  constructor
  · intro datumS valutaS betragS statusS zweckS ibanS
    exact parse_verwendungszweck_invariant zweckS _ rfl rfl (le_refl 0)
  · intro lines t ht
    exact (trLoopAux_facts _ _ t ht).2

/-- A three-line format-2 PDF record used to witness the reader theorems. -/
def w7pdfLines : List Str :=
  [str "04 Apr Buy trade DE000BASF111 BASF SE, quantity:",
   str "Handel", str "2024 10"]

theorem classifier_flag_invariant_witness :
    TxInvariant (read_csv_row (str "01.01.2024") (str "02.01.2024")
      (str "-100,00") (str "gebucht") c8Narr (str "DE07123412341234123412")) ∧
    TxInvariant ((read_trade_republic_pdf w7pdfLines).headD txDefault) := by
  refine ⟨classifier_flag_invariant.1 _ _ _ _ _ _, ?_⟩
  have hne : read_trade_republic_pdf w7pdfLines ≠ [] := by decide
  cases hl : read_trade_republic_pdf w7pdfLines with
  | nil => exact absurd hl hne
  | cons t0 ts =>
    rw [List.headD_cons]
    exact classifier_flag_invariant.2 w7pdfLines t0
      (by rw [hl]; exact List.mem_cons_self t0 ts)

/-- **C10.** Every transaction emitted by the PDF reader, from any of the
three record shapes, has value date equal to trade date, status `"gebucht"`,
and an empty IBAN. -/
theorem pdf_reader_fixed_fields :
    ∀ (lines : List Str), ∀ t ∈ read_trade_republic_pdf lines,
      t.valuta = t.datum ∧ t.status = str "gebucht" ∧ t.iban = [] :=
  fun _ t ht => (trLoopAux_facts _ _ t ht).1

/-- The same three-line record, for the C10 witness. -/
def w10pdfLines : List Str :=
  [str "04 Apr Buy trade DE000BASF111 BASF SE, quantity:",
   str "Handel", str "2024 10"]

theorem pdf_reader_fixed_fields_witness :
    ((read_trade_republic_pdf w10pdfLines).headD txDefault).valuta =
      ((read_trade_republic_pdf w10pdfLines).headD txDefault).datum ∧
    ((read_trade_republic_pdf w10pdfLines).headD txDefault).status = str "gebucht" ∧
    ((read_trade_republic_pdf w10pdfLines).headD txDefault).iban = [] := by
  have hne : read_trade_republic_pdf w10pdfLines ≠ [] := by decide
  cases hl : read_trade_republic_pdf w10pdfLines with
  | nil => exact absurd hl hne
  | cons t0 ts =>
    rw [List.headD_cons]
    exact pdf_reader_fixed_fields w10pdfLines t0
      (by rw [hl]; exact List.mem_cons_self t0 ts)

/-! ## C9: the amount selection of the PDF reader -/

/-- Spec-side restatement of the claimed selection rule, with the
"second-to-last" amount read off the reversed list. -/
def specTradeBetrag (is_buy : Bool) (amounts : List Str) : ℚ :=
  if is_buy then
    if 2 ≤ amounts.length then -|parse_german_number (amounts.reverse.getD 1 [])|
    else -|parse_german_number (amounts.getD 0 [])|
  else |parse_german_number (amounts.getD 0 [])|

/-- **C9.** For a nonempty extracted amount list, the reader's amount
expression (`if amounts then … buyBetrag … sellBetrag`, as used in all three
record shapes) takes, for a buy, the negated absolute value of the
second-to-last amount when at least two are present and of the first amount
otherwise, and for a sell the absolute value of the first amount; buys are
nonpositive outflows and sells nonnegative inflows. -/
theorem trade_amount_selection (is_buy : Bool) (amounts : List Str)
    (h : amounts ≠ []) :
    (if amounts.isEmpty then 0
     else if is_buy then buyBetrag amounts else sellBetrag amounts) =
      specTradeBetrag is_buy amounts ∧
    specTradeBetrag true amounts ≤ 0 ∧ 0 ≤ specTradeBetrag false amounts := by
  have hne : amounts.isEmpty = false := by
    cases amounts with
    | nil => exact absurd rfl h
    | cons a b => rfl
  refine ⟨?_, ?_, ?_⟩
  · simp only [hne, Bool.false_eq_true, if_false]
    cases is_buy with
    | false => simp [specTradeBetrag, sellBetrag]
    | true =>
      by_cases h2 : 2 ≤ amounts.length
      · simp only [specTradeBetrag, buyBetrag, if_pos h2, if_true]
        have h1 : 1 < amounts.length := by omega
        have hrev : amounts.reverse[1]? = amounts[amounts.length - 1 - 1]? :=
          List.getElem?_reverse (by simpa using h1)
        rw [List.getD_eq_getElem?_getD, List.getD_eq_getElem?_getD, hrev,
          show amounts.length - 1 - 1 = amounts.length - 2 from by omega]
      · simp [specTradeBetrag, buyBetrag, h2]
  · unfold specTradeBetrag
    rw [if_pos rfl]
    split
    · exact neg_nonpos.mpr (abs_nonneg _)
    · exact neg_nonpos.mpr (abs_nonneg _)
  · simp [specTradeBetrag, abs_nonneg]

theorem trade_amount_selection_witness :
    ([str "1,00", str "2,00", str "3,00"] : List Str) ≠ [] ∧
    ((if ([str "1,00", str "2,00", str "3,00"] : List Str).isEmpty then (0 : ℚ)
      else if (true : Bool) then buyBetrag [str "1,00", str "2,00", str "3,00"]
      else sellBetrag [str "1,00", str "2,00", str "3,00"]) =
       specTradeBetrag true [str "1,00", str "2,00", str "3,00"] ∧
     specTradeBetrag true [str "1,00", str "2,00", str "3,00"] ≤ 0 ∧
     0 ≤ specTradeBetrag false [str "1,00", str "2,00", str "3,00"]) :=
  ⟨by decide, trade_amount_selection true [str "1,00", str "2,00", str "3,00"]
    (by decide)⟩
